import Mathlib

/-!
Verification of the Limo on-chain limit-order settlement core.

This file gives a shallow embedding, in Lean 4, of the order-lifecycle,
fill-accounting and flash-fill-introspection logic of the Limo program
(`programs/limo/src/operations.rs`, `programs/limo/src/utils/flash_ixs.rs`,
`programs/limo/src/handlers/flash_take_order.rs`, with the data model of
`programs/limo/src/state.rs`), and proves the specified properties of the
fill arithmetic, the tip split, the order state machine and the flash
start/end instruction-introspection verifier.

Machine integers (`u64`, `u128`, `u8`) are embedded as `Nat` with explicit
range checks exactly where the source performs them (`checked_add`,
`checked_sub`, `u64::try_from`, `div_ceil`).  The source crate is built with
the Solana/Anchor profile `overflow-checks = true` (workspace build profile;
spec: overflow "is a fatal per-call error (never wraps/saturates silently)"),
so the plain `-=`, `-` and `+=` operators on `u64` abort the call on
wrap-around; such sites are embedded as `panickingSub` / `panickingAdd`,
returning the distinguished fatal error `PanicArithmeticOverflow` instead of
ever wrapping.  Fallible operations return `Except LimoError _`; an `Order`
or `GlobalConfig` is passed in and the updated record returned, mirroring
the `&mut` parameters of the source.
-/

namespace Limo

instance {ε α : Type} [DecidableEq ε] [DecidableEq α] :
    DecidableEq (Except ε α) := fun x y =>
  match x, y with
  | .ok a, .ok b =>
    if h : a = b then .isTrue (by rw [h]) else .isFalse (by simp [h])
  | .ok _, .error _ => .isFalse (by simp)
  | .error _, .ok _ => .isFalse (by simp)
  | .error a, .error b =>
    if h : a = b then .isTrue (by rw [h]) else .isFalse (by simp [h])

/-- Upper bound (exclusive) of the `u64` domain. -/
def U64_SIZE : Nat := 2 ^ 64

/-- Error codes of the program (`LimoError` in `lib.rs`), restricted to the
ones reachable from the embedded operations, plus:
`PanicArithmeticOverflow` for a Rust integer-overflow abort (fatal, models
the `overflow-checks = true` build profile and `expect`/`unwrap` panics), and
`ProgramError` / `DeserializeError` for errors propagated from the
instruction-sysvar loader and the Borsh argument decoder. -/
inductive LimoError where
  | OrderCanNotBeCanceled
  | OrderNotActive
  | MathOverflow
  | OrderInputAmountInvalid
  | OrderOutputAmountInvalid
  | InvalidHostFee
  | InvalidTipBalance
  | InvalidTipTransferAmount
  | InvalidHostTipBalance
  | OrderWithinFlashOperation
  | CPINotAllowed
  | FlashTxWithUnexpectedIxs
  | FlashIxsNotEnded
  | FlashIxsNotStarted
  | FlashIxsAccountMismatch
  | FlashIxsArgsMismatch
  | OrderNotWithinFlashOperation
  | NotEnoughTimePassedSinceLastUpdate
  | OrderInputAmountTooLarge
  | PanicArithmeticOverflow
  | ProgramError
  | DeserializeError
  deriving Repr, DecidableEq

/-- `OrderStatus` (`state.rs`). -/
inductive OrderStatus where
  | Active
  | Filled
  | Cancelled
  deriving Repr, DecidableEq

/-- `OrderStatus as u8` (`state.rs`: Active = 0, Filled = 1, Cancelled = 2). -/
def OrderStatus.asU8 : OrderStatus → Nat
  | .Active => 0
  | .Filled => 1
  | .Cancelled => 2

/-- The `Order` account (`state.rs`), restricted to the numeric and
lifecycle fields read or written by the embedded operations; the pubkey
fields (`maker`, mints, `counterparty`, ...) are validated by the Anchor
account constraints outside the embedded core and never enter the
arithmetic. `status` and `flash_ix_lock` are `u8` fields. -/
structure Order where
  initial_input_amount : Nat
  expected_output_amount : Nat
  remaining_input_amount : Nat
  filled_output_amount : Nat
  tip_amount : Nat
  number_of_fills : Nat
  order_type : Nat
  status : Nat
  flash_ix_lock : Nat
  last_updated_timestamp : Nat
  flash_start_taker_output_balance : Nat
  deriving Repr, DecidableEq

/-- The `GlobalConfig` account (`state.rs`), restricted to the fields the
embedded operations touch. -/
structure GlobalConfig where
  emergency_mode : Nat
  flash_take_order_blocked : Nat
  new_orders_blocked : Nat
  orders_taking_blocked : Nat
  host_fee_bps : Nat
  order_close_delay_seconds : Nat
  pda_authority_previous_lamports_balance : Nat
  total_tip_amount : Nat
  host_tip_amount : Nat
  deriving Repr, DecidableEq

/-- `TakeOrderEffects` (`state.rs`). -/
structure TakeOrderEffects where
  input_to_send_to_taker : Nat
  output_to_send_to_maker : Nat
  deriving Repr, DecidableEq

/-- `TipCalcs` (`state.rs`): result of the tip split. -/
structure TipCalcs where
  host_tip : Nat
  maker_tip : Nat
  deriving Repr, DecidableEq

/-- `u64::checked_add`. -/
def checkedAdd (a b : Nat) : Option Nat :=
  if a + b < U64_SIZE then some (a + b) else none

/-- `u64::checked_sub`. -/
def checkedSub (a b : Nat) : Option Nat :=
  if b ≤ a then some (a - b) else none

/-- A plain `u64` subtraction (`-=` / `-`).  With the crate's
`overflow-checks = true` build profile an underflow aborts the call, so the
embedding returns the fatal `PanicArithmeticOverflow` instead of wrapping. -/
def panickingSub (a b : Nat) : Except LimoError Nat :=
  if b ≤ a then .ok (a - b) else .error .PanicArithmeticOverflow

/-- A plain `u64` addition (`+=` / `+`); aborts (fatal error) on overflow,
as `panickingSub`. -/
def panickingAdd (a b : Nat) : Except LimoError Nat :=
  if a + b < U64_SIZE then .ok (a + b) else .error .PanicArithmeticOverflow

/-- `u64::try_from` on a `u128` value. -/
def u64TryFrom (a : Nat) : Option Nat :=
  if a < U64_SIZE then some a else none

/-- `u128::div_ceil` for a nonzero divisor (the caller guards the
zero-divisor panic separately). -/
def divCeil (a b : Nat) : Nat := (a + b - 1) / b

/-- `take_order_calcs` (`operations.rs`).  Checks the fill preconditions,
computes the proportional minimum output in `u128`, narrows it to `u64`,
and rejects a declared output below the minimum.  A zero
`initial_input_amount` makes `div_ceil` divide by zero, a fatal panic. -/
def take_order_calcs (order : Order) (input_amount output_amount : Nat) :
    Except LimoError TakeOrderEffects :=
  if ¬ input_amount > 0 then .error .OrderInputAmountInvalid
  else if ¬ order.status = OrderStatus.Active.asU8 then .error .OrderNotActive
  else if ¬ input_amount ≤ order.remaining_input_amount then
    .error .OrderInputAmountTooLarge
  else if order.initial_input_amount = 0 then .error .PanicArithmeticOverflow
  else
    let input_to_send_to_taker := input_amount
    let minimum_output_u128 :=
      divCeil (input_to_send_to_taker * order.expected_output_amount)
        order.initial_input_amount
    match u64TryFrom minimum_output_u128 with
    | none => .error .MathOverflow
    | some minimum_output_to_send_to_maker =>
      let output_to_send_to_maker :=
        max output_amount minimum_output_to_send_to_maker
      if output_to_send_to_maker ≠ output_amount then
        .error .OrderOutputAmountInvalid
      else
        .ok { input_to_send_to_taker := input_to_send_to_taker
              output_to_send_to_maker := output_to_send_to_maker }

/-- `close_order_and_claim_tip` (`operations.rs`).  The timestamp compare
adds two `u64` values with the plain `+`, so an out-of-range sum aborts. -/
def close_order_and_claim_tip (order : Order) (global_config : GlobalConfig)
    (current_timestamp : Nat) : Except LimoError (Order × GlobalConfig) :=
  if ¬ (order.status = OrderStatus.Active.asU8 ∨
        order.status = OrderStatus.Filled.asU8) then
    .error .OrderCanNotBeCanceled
  else if ¬ order.last_updated_timestamp +
        global_config.order_close_delay_seconds < U64_SIZE then
    .error .PanicArithmeticOverflow
  else if ¬ current_timestamp ≥ order.last_updated_timestamp +
        global_config.order_close_delay_seconds then
    .error .NotEnoughTimePassedSinceLastUpdate
  else if ¬ order.flash_ix_lock = 0 then .error .OrderWithinFlashOperation
  else
    match panickingSub global_config.total_tip_amount order.tip_amount with
    | .error e => .error e
    | .ok total =>
      .ok ({ order with status := OrderStatus.Cancelled.asU8 },
           { global_config with total_tip_amount := total })

/-- `withdraw_host_tip` (`operations.rs`): returns the updated config and
the withdrawn host tip amount. -/
def withdraw_host_tip (global_config : GlobalConfig)
    (pda_authority_balance : Nat) : Except LimoError (GlobalConfig × Nat) :=
  if ¬ pda_authority_balance ≥ global_config.host_tip_amount then
    .error .InvalidHostTipBalance
  else
    match panickingSub global_config.total_tip_amount
        global_config.host_tip_amount with
    | .error e => .error e
    | .ok total =>
      .ok ({ global_config with total_tip_amount := total,
                                host_tip_amount := 0 },
           global_config.host_tip_amount)

/-- `validate_pda_authority_balance_and_update_accounting`
(`operations.rs`).  The balance delta is a plain `u64` subtraction. -/
def validate_pda_authority_balance_and_update_accounting
    (global_config : GlobalConfig) (pda_authority_balance tip : Nat) :
    Except LimoError GlobalConfig :=
  match panickingSub pda_authority_balance
      global_config.pda_authority_previous_lamports_balance with
  | .error e => .error e
  | .ok delta =>
    if ¬ delta ≥ tip then .error .InvalidTipTransferAmount
    else if ¬ pda_authority_balance ≥ global_config.total_tip_amount then
      .error .InvalidTipBalance
    else
      .ok { global_config with
              pda_authority_previous_lamports_balance :=
                pda_authority_balance }

/-- `tip_calcs` (`operations.rs`).

Modelled from the spec: the fixed-point `Fraction` helper
(`utils/fraction.rs`, referenced as
`Fraction::from_bps(host_fee_bps) * Fraction::from(tip_amount)` followed by
`to_ceil`) is not under `src/`; the spec defines the host share as
`host_tip = ceil(tip_amount * host_fee_bps / 10000)`.  The subsequent
checked subtraction is in the source. -/
def tip_calcs (global_config : GlobalConfig) (tip_amount : Nat) :
    Except LimoError TipCalcs :=
  let host_tip := divCeil (tip_amount * global_config.host_fee_bps) 10000
  match checkedSub tip_amount host_tip with
  | none => .error .MathOverflow
  | some maker_tip => .ok { host_tip := host_tip, maker_tip := maker_tip }

/-- `update_take_order_accounting_and_tips` (`operations.rs`).  Every
balance step is a `checked_sub`/`checked_add` mapped to `MathOverflow`;
`number_of_fills += 1` is a plain add (abort on overflow); the final
timestamp store converts an `i64` with `try_into().expect(..)`, panicking
when negative. -/
def update_take_order_accounting_and_tips (global_config : GlobalConfig)
    (order : Order)
    (input_to_send_to_taker output_to_send_to_maker tip_amount : Nat)
    (current_timestamp : Int) : Except LimoError (GlobalConfig × Order) :=
  match checkedSub order.remaining_input_amount input_to_send_to_taker with
  | none => .error .MathOverflow
  | some remaining =>
  match checkedAdd order.filled_output_amount output_to_send_to_maker with
  | none => .error .MathOverflow
  | some filled =>
  match tip_calcs global_config tip_amount with
  | .error e => .error e
  | .ok tips =>
  match checkedAdd global_config.host_tip_amount tips.host_tip with
  | none => .error .MathOverflow
  | some host_total =>
  match checkedAdd order.tip_amount tips.maker_tip with
  | none => .error .MathOverflow
  | some order_tip =>
  match checkedAdd global_config.total_tip_amount tip_amount with
  | none => .error .MathOverflow
  | some tip_total =>
  match panickingAdd order.number_of_fills 1 with
  | .error e => .error e
  | .ok fills =>
    if current_timestamp < 0 then .error .PanicArithmeticOverflow
    else
      let status :=
        if remaining = 0 ∧ filled ≥ order.expected_output_amount then
          OrderStatus.Filled.asU8
        else order.status
      .ok ({ global_config with host_tip_amount := host_total,
                                total_tip_amount := tip_total },
           { order with remaining_input_amount := remaining,
                        filled_output_amount := filled,
                        tip_amount := order_tip,
                        number_of_fills := fills,
                        status := status,
                        last_updated_timestamp := current_timestamp.toNat })

/-- `take_order` (`operations.rs`). -/
def take_order (global_config : GlobalConfig) (order : Order)
    (input_amount tip_amount : Nat) (current_timestamp : Int)
    (output_amount : Nat) :
    Except LimoError (GlobalConfig × Order × TakeOrderEffects) :=
  if ¬ order.flash_ix_lock = 0 then .error .OrderWithinFlashOperation
  else
    match take_order_calcs order input_amount output_amount with
    | .error e => .error e
    | .ok effects =>
      match update_take_order_accounting_and_tips global_config order
          effects.input_to_send_to_taker effects.output_to_send_to_maker
          tip_amount current_timestamp with
      | .error e => .error e
      | .ok (gc, o) => .ok (gc, o, effects)

/-- `flash_withdraw_order_input` (`operations.rs`): the state-changing core
of the flash `start` handler. -/
def flash_withdraw_order_input (order : Order)
    (input_amount output_amount : Nat) :
    Except LimoError (Order × TakeOrderEffects) :=
  match take_order_calcs order input_amount output_amount with
  | .error e => .error e
  | .ok effects =>
    if ¬ order.flash_ix_lock = 0 then .error .OrderWithinFlashOperation
    else .ok ({ order with flash_ix_lock := 1 }, effects)

/-- `flash_pay_order_output` (`operations.rs`): the state-changing core of
the flash `end` handler. -/
def flash_pay_order_output (global_config : GlobalConfig) (order : Order)
    (input_amount output_amount tip_amount : Nat) (current_timestamp : Int) :
    Except LimoError (GlobalConfig × Order × TakeOrderEffects) :=
  match take_order_calcs order input_amount output_amount with
  | .error e => .error e
  | .ok effects =>
    if ¬ order.flash_ix_lock = 1 then .error .OrderNotWithinFlashOperation
    else
      match update_take_order_accounting_and_tips global_config order
          effects.input_to_send_to_taker effects.output_to_send_to_maker
          tip_amount current_timestamp with
      | .error e => .error e
      | .ok (gc, o) => .ok (gc, { o with flash_ix_lock := 0 }, effects)

/-- `create_order` (`operations.rs`), restricted to the embedded fields
(the handler `handler_create_order` requires `input_amount > 0` and
`output_amount > 0` before calling it). -/
def create_order (input_amount output_amount order_type current_timestamp : Nat) :
    Order :=
  { initial_input_amount := input_amount
    remaining_input_amount := input_amount
    expected_output_amount := output_amount
    number_of_fills := 0
    filled_output_amount := 0
    tip_amount := 0
    status := OrderStatus.Active.asU8
    order_type := order_type
    flash_ix_lock := 0
    last_updated_timestamp := current_timestamp
    flash_start_taker_output_balance := 0 }

/-- A result is an error (the call failed and, the runtime being
transactional, left no state change). -/
def failed {α : Type} (r : Except LimoError α) : Bool :=
  match r with
  | .ok _ => false
  | .error _ => true

/-! ## Flash-fill instruction introspection (`utils/flash_ixs.rs`)

The verifier reads the enclosing transaction as an ordered list of decoded
instruction descriptors plus the current instruction index (the
`Instructions` sysvar).  Program addresses are 32-byte pubkeys compared only
for equality, embedded as distinct `Nat` constants.  The instruction loader
(`load_instruction_at_checked`) fails on an out-of-range index; the
`IxIterator` treats that failure (`InvalidArgument`) as end of iteration. -/

/-- A decoded transaction instruction: program address, ordered account
addresses, raw data bytes (`solana_program::instruction::Instruction`,
keeping of each `AccountMeta` the `pubkey` that the verifier compares). -/
structure Instruction where
  program_id : Nat
  accounts : List Nat
  data : List Nat
  deriving Repr, DecidableEq

/-- `ComputeBudget111...` program address (abstracted; all five program
addresses below are pairwise distinct 32-byte constants, embedded as
pairwise distinct naturals, equality being all the verifier uses). -/
def COMPUTE_BUDGET_PUBKEY : Nat := 1

/-- `spl_token::ID`. -/
def TOKEN_PROGRAM_ID : Nat := 2

/-- `token_2022::ID`. -/
def TOKEN_2022_ID : Nat := 3

/-- `associated_token::ID`. -/
def ASSOCIATED_TOKEN_ID : Nat := 4

/-- `crate::id()`: the Limo program's own address. -/
def LIMO_PROGRAM_ID : Nat := 5

/-- `program_id_allowed` (`flash_ixs.rs`). -/
def program_id_allowed (program_id : Nat) : Bool :=
  program_id = COMPUTE_BUDGET_PUBKEY ∨ program_id = TOKEN_PROGRAM_ID ∨
    program_id = TOKEN_2022_ID ∨ program_id = ASSOCIATED_TOKEN_ID

/-- `load_instruction_at` of the `BpfInstructionLoader`: out-of-range
indices fail (`load_instruction_at_checked`). -/
def loadInstructionAt (instrs : List Instruction) (idx : Nat) :
    Except LimoError Instruction :=
  match instrs[idx]? with
  | some ix => .ok ix
  | none => .error .ProgramError

/-- The loop `for idx in lo..hi { require!(program_id_allowed(...)) }`
over `load_instruction_at` (prefix scan of `search_second_ix`), written
with the loop's trip count `k = hi - lo` explicit for structural
recursion. -/
def checkAllowedRangeAux (instrs : List Instruction) :
    Nat → Nat → Except LimoError Unit
  | _, 0 => .ok ()
  | lo, k + 1 =>
    match loadInstructionAt instrs lo with
    | .error e => .error e
    | .ok ix =>
      if program_id_allowed ix.program_id then
        checkAllowedRangeAux instrs (lo + 1) k
      else .error .FlashTxWithUnexpectedIxs

/-- The loop `for idx in lo..hi { require!(program_id_allowed(...)) }`. -/
def checkAllowedRange (instrs : List Instruction) (lo hi : Nat) :
    Except LimoError Unit :=
  checkAllowedRangeAux instrs lo (hi - lo)

/-- The `IxIterator` loop scanning for the first instruction of this
program, skipping every other instruction without any check; `i` is the
absolute index of the list's head within the transaction. -/
def scanForLimoAux : List Instruction → Nat → Option (Nat × Instruction)
  | [], _ => none
  | ix :: rest, i =>
    if ix.program_id = LIMO_PROGRAM_ID then some (i, ix)
    else scanForLimoAux rest (i + 1)

/-- The `IxIterator` scan from absolute index `i` for the first instruction
of this program; iteration ends at the first out-of-range index
(`InvalidArgument` from the loader). -/
def scanForLimo (instrs : List Instruction) (i : Nat) :
    Option (Nat × Instruction) :=
  scanForLimoAux (instrs.drop i) i

/-- The `IxIterator` loop requiring every listed instruction to be
allow-listed. -/
def checkAllowedListAux : List Instruction → Except LimoError Unit
  | [] => .ok ()
  | ix :: rest =>
    if program_id_allowed ix.program_id then checkAllowedListAux rest
    else .error .FlashTxWithUnexpectedIxs

/-- The `IxIterator` loop requiring every remaining instruction (from index
`i` to the end of the transaction) to be allow-listed. -/
def checkAllowedToEnd (instrs : List Instruction) (i : Nat) :
    Except LimoError Unit :=
  checkAllowedListAux (instrs.drop i)

/-- `search_second_ix` (`flash_ixs.rs`): executed by the flash `start`
handler.  Every instruction before the current one must be allow-listed;
the first this-program instruction strictly after the current index is the
candidate `end` (its absence is `FlashIxsNotEnded`); every instruction
after the candidate must be allow-listed.  Instructions strictly between
the current index and the candidate that are not from this program are
skipped without any check. -/
def search_second_ix (instrs : List Instruction) (current_idx : Nat) :
    Except LimoError Instruction :=
  match checkAllowedRange instrs 0 current_idx with
  | .error e => .error e
  | .ok _ =>
    match scanForLimo instrs (current_idx + 1) with
    | none => .error .FlashIxsNotEnded
    | some (j, extra_ix) =>
      match checkAllowedToEnd instrs (j + 1) with
      | .error e => .error e
      | .ok _ => .ok extra_ix

/-- The loop of `search_first_ix` over `lo..hi` with trip count `k`:
scanning forward, the first this-program instruction is returned; every
instruction before it must be allow-listed; the loop breaks at the match,
checking nothing between the match and the current index. -/
def scanFirstLimoCheckedAux (instrs : List Instruction) :
    Nat → Nat → Except LimoError (Option Instruction)
  | _, 0 => .ok none
  | lo, k + 1 =>
    match loadInstructionAt instrs lo with
    | .error e => .error e
    | .ok ix =>
      if ix.program_id = LIMO_PROGRAM_ID then .ok (some ix)
      else if program_id_allowed ix.program_id then
        scanFirstLimoCheckedAux instrs (lo + 1) k
      else .error .FlashTxWithUnexpectedIxs

/-- The loop of `search_first_ix` over `0..current_idx`. -/
def scanFirstLimoChecked (instrs : List Instruction) (lo hi : Nat) :
    Except LimoError (Option Instruction) :=
  scanFirstLimoCheckedAux instrs lo (hi - lo)

/-- `search_first_ix` (`flash_ixs.rs`): executed by the flash `end`
handler.  First, every instruction strictly after the current index must
be allow-listed; then the transaction is scanned forward from index 0 and
the first this-program instruction found before the current index is the
candidate `start` (its absence is `FlashIxsNotStarted`). -/
def search_first_ix (instrs : List Instruction) (current_idx : Nat) :
    Except LimoError Instruction :=
  match checkAllowedToEnd instrs (current_idx + 1) with
  | .error e => .error e
  | .ok _ =>
    match scanFirstLimoChecked instrs 0 current_idx with
    | .error e => .error e
    | .ok none => .error .FlashIxsNotStarted
    | .ok (some extra_ix) => .ok extra_ix

/-- The argument payload shared by `FlashTakeOrderStart` and
`FlashTakeOrderEnd` (`lib.rs` instruction arguments). -/
structure FlashTakeOrderArgs where
  input_amount : Nat
  min_output_amount : Nat
  tip_amount_permissionless_taking : Nat
  deriving Repr, DecidableEq

/-- Little-endian byte-list reading (Borsh `u64` field). -/
def leNat : List Nat → Nat
  | [] => 0
  | b :: rest => b % 256 + 256 * leNat rest

/-- Borsh deserialization of a flash take-order argument payload
(`T::try_from_slice` on the bytes after the discriminator): three
little-endian `u64` fields, consuming the slice exactly. -/
def decodeFlashArgs (bytes : List Nat) : Option FlashTakeOrderArgs :=
  if bytes.length = 24 then
    some { input_amount := leNat (bytes.take 8)
           min_output_amount := leNat ((bytes.drop 8).take 8)
           tip_amount_permissionless_taking := leNat (bytes.drop 16) }
  else none

/-- Little-endian encoding of a `u64` into 8 bytes (used to build concrete
instruction payloads). -/
def natToLe8 (n : Nat) : List Nat :=
  [n % 256, n / 256 % 256, n / 256 ^ 2 % 256, n / 256 ^ 3 % 256,
   n / 256 ^ 4 % 256, n / 256 ^ 5 % 256, n / 256 ^ 6 % 256, n / 256 ^ 7 % 256]

/-- Borsh serialization of a flash take-order argument payload. -/
def encodeFlashArgs (a : FlashTakeOrderArgs) : List Nat :=
  natToLe8 a.input_amount ++ natToLe8 a.min_output_amount ++
    natToLe8 a.tip_amount_permissionless_taking

/-- The 8-byte Anchor discriminator of the `FlashTakeOrderStart`
instruction (a sha256-derived constant generated by the Anchor macro;
abstracted to a concrete 8-byte list, only its length and its distinctness
from the `end` discriminator being used). -/
def flashTakeOrderStartDisc : List Nat := [90, 1, 1, 1, 1, 1, 1, 1]

/-- The 8-byte Anchor discriminator of the `FlashTakeOrderEnd`
instruction. -/
def flashTakeOrderEndDisc : List Nat := [91, 2, 2, 2, 2, 2, 2, 2]

/-- `ensure_second_ix_match_internal` / `ensure_first_ix_match_internal`
(`flash_ixs.rs`), generic over the expected counterpart instruction type
`T` exactly as the source is: `search` finds the counterpart, whose first
8 data bytes must equal `T::discriminator()` (`disc`), whose account list
must have the same length and the same address at every position as the
current instruction's, and whose remaining data bytes must deserialize
(`decode`). -/
def ensure_ix_match {α : Type} (disc : List Nat)
    (decode : List Nat → Option α)
    (search : List Instruction → Nat → Except LimoError Instruction)
    (instrs : List Instruction) (current_idx : Nat) : Except LimoError α :=
  match search instrs current_idx with
  | .error e => .error e
  | .ok other_ix =>
    if other_ix.data.length < 8 then .error .FlashTxWithUnexpectedIxs
    else if other_ix.data.take 8 ≠ disc then .error .FlashTxWithUnexpectedIxs
    else
      match loadInstructionAt instrs current_idx with
      | .error e => .error e
      | .ok current_ix =>
        if other_ix.accounts.length ≠ current_ix.accounts.length then
          .error .FlashIxsAccountMismatch
        else if (current_ix.accounts.zip other_ix.accounts).any
            (fun p => p.1 ≠ p.2) then
          .error .FlashIxsAccountMismatch
        else
          match decode (other_ix.data.drop 8) with
          | some args => .ok args
          | none => .error .DeserializeError

/-- `ensure_second_ix_match` instantiated at `T = FlashTakeOrderEnd`, as
called by the flash `start` handler. -/
def ensure_second_ix_match (instrs : List Instruction) (current_idx : Nat) :
    Except LimoError FlashTakeOrderArgs :=
  ensure_ix_match flashTakeOrderEndDisc decodeFlashArgs search_second_ix
    instrs current_idx

/-- `ensure_first_ix_match` instantiated at `T = FlashTakeOrderStart`, as
called by the flash `end` handler. -/
def ensure_first_ix_match (instrs : List Instruction) (current_idx : Nat) :
    Except LimoError FlashTakeOrderArgs :=
  ensure_ix_match flashTakeOrderStartDisc decodeFlashArgs search_first_ix
    instrs current_idx

/-- `TRANSACTION_LEVEL_STACK_HEIGHT` (`solana_program`). -/
def TRANSACTION_LEVEL_STACK_HEIGHT : Nat := 1

/-- The CPI guard of `handler_checks` (`handlers/flash_take_order.rs`):
the instruction-sysvar-reported current instruction
(`get_instruction_relative(0)`) must belong to this program, and the
call-stack height must not exceed the transaction level. -/
def handler_cpi_checks (instrs : List Instruction)
    (current_idx stack_height : Nat) : Except LimoError Unit :=
  match loadInstructionAt instrs current_idx with
  | .error e => .error e
  | .ok current_ix =>
    if ¬ current_ix.program_id = LIMO_PROGRAM_ID then .error .CPINotAllowed
    else if ¬ stack_height ≤ TRANSACTION_LEVEL_STACK_HEIGHT then
      .error .CPINotAllowed
    else .ok ()

/-- The argument comparison of `handler_start` / `handler_end`
(`handlers/flash_take_order.rs`): the three decoded fields of the paired
instruction must equal this handler's own arguments. -/
def flash_args_match (args other : FlashTakeOrderArgs) :
    Except LimoError Unit :=
  if ¬ args.input_amount = other.input_amount then
    .error .FlashIxsArgsMismatch
  else if ¬ args.min_output_amount = other.min_output_amount then
    .error .FlashIxsArgsMismatch
  else if ¬ args.tip_amount_permissionless_taking =
      other.tip_amount_permissionless_taking then
    .error .FlashIxsArgsMismatch
  else .ok ()

/-- The introspection pipeline of `handler_start`
(`handlers/flash_take_order.rs`), up to and including the argument
comparison: the CPI guard of `handler_checks`, then
`ensure_second_ix_match`, then the three `require_eq!` argument checks;
returns the decoded `end` payload.  (The token-extension validation that
precedes it and the token transfers that follow are external
collaborators, outside the embedded core.) -/
def handler_start_introspection (instrs : List Instruction)
    (current_idx stack_height : Nat) (args : FlashTakeOrderArgs) :
    Except LimoError FlashTakeOrderArgs :=
  match handler_cpi_checks instrs current_idx stack_height with
  | .error e => .error e
  | .ok _ =>
    match ensure_second_ix_match instrs current_idx with
    | .error e => .error e
    | .ok pay =>
      match flash_args_match args pay with
      | .error e => .error e
      | .ok _ => .ok pay

/-- The introspection pipeline of `handler_end`, symmetric to
`handler_start_introspection`, pairing with the `start` instruction. -/
def handler_end_introspection (instrs : List Instruction)
    (current_idx stack_height : Nat) (args : FlashTakeOrderArgs) :
    Except LimoError FlashTakeOrderArgs :=
  match handler_cpi_checks instrs current_idx stack_height with
  | .error e => .error e
  | .ok _ =>
    match ensure_first_ix_match instrs current_idx with
    | .error e => .error e
    | .ok withdraw =>
      match flash_args_match args withdraw with
      | .error e => .error e
      | .ok _ => .ok withdraw

/-! ## Ceiling-division arithmetic -/

theorem le_divCeil_mul {a b : Nat} (hb : 0 < b) : a ≤ divCeil a b * b := by
  unfold divCeil
  have h1 := Nat.div_add_mod (a + b - 1) b
  have h2 : (a + b - 1) % b < b := Nat.mod_lt _ hb
  rw [Nat.mul_comm]
  omega

theorem divCeil_le_iff {a b m : Nat} (hb : 0 < b) :
    divCeil a b ≤ m ↔ a ≤ m * b := by
  unfold divCeil
  have h1 : (a + b - 1) / b ≤ m ↔ (a + b - 1) / b < m + 1 := by omega
  rw [h1, Nat.div_lt_iff_lt_mul hb, Nat.succ_mul]
  omega

theorem divCeil_add_le {a b n : Nat} (hn : 0 < n) :
    divCeil (a + b) n ≤ divCeil a n + divCeil b n := by
  rw [divCeil_le_iff hn]
  have ha := @le_divCeil_mul a n hn
  have hb := @le_divCeil_mul b n hn
  rw [Nat.add_mul]
  omega

theorem divCeil_eq_div {a b : Nat} (hb : 0 < b) (h : b ∣ a) :
    divCeil a b = a / b := by
  obtain ⟨c, rfl⟩ := h
  unfold divCeil
  have he : b * c + b - 1 = b * c + (b - 1) := by omega
  rw [Nat.mul_div_cancel_left _ hb, he, Nat.mul_add_div hb,
    Nat.div_eq_of_lt (by omega), Nat.add_zero]

theorem divCeil_mul_self {b e : Nat} (hb : 0 < b) : divCeil (b * e) b = e := by
  rw [divCeil_eq_div hb ⟨e, rfl⟩, Nat.mul_div_cancel_left _ hb]

/-! ## Characterization of the fill computation -/

/-- The proportional minimum output of a fill of `x` against `order`:
`ceil(x * expected_output_amount / initial_input_amount)`. -/
def minimumOutput (order : Order) (x : Nat) : Nat :=
  divCeil (x * order.expected_output_amount) order.initial_input_amount

/-- Inversion: everything a successful `take_order_calcs` guarantees. -/
theorem take_order_calcs_ok_inversion {order : Order} {x y : Nat}
    {eff : TakeOrderEffects} (h : take_order_calcs order x y = .ok eff) :
    eff.input_to_send_to_taker = x ∧ eff.output_to_send_to_maker = y ∧
      0 < x ∧ order.status = OrderStatus.Active.asU8 ∧
      x ≤ order.remaining_input_amount ∧
      0 < order.initial_input_amount ∧
      minimumOutput order x ≤ y ∧ minimumOutput order x < U64_SIZE := by
  unfold take_order_calcs at h
  split at h
  · exact Except.noConfusion h
  · split at h
    · exact Except.noConfusion h
    · split at h
      · exact Except.noConfusion h
      · split at h
        · exact Except.noConfusion h
        · rename_i hx hstat hrem hinit
          simp only [u64TryFrom, minimumOutput] at h ⊢
          split at h
          · exact Except.noConfusion h
          · rename_i m hm
            split at h
            · exact Except.noConfusion h
            · rename_i hmax
              simp only [not_not] at hmax
              cases h
              split at hm
              · rename_i hlt
                cases hm
                simp only [not_not] at hstat
                refine ⟨rfl, hmax, by omega, hstat, by omega, by omega, by omega, by omega⟩
              · exact Option.noConfusion hm

/-- Under the order well-formedness invariants, `take_order_calcs` is the
minimum-output test: succeed returning the declared amounts when the
declared output reaches the proportional minimum, fail with
`OrderOutputAmountInvalid` otherwise. -/
theorem take_order_calcs_eq (order : Order) (x y : Nat) (hx : 0 < x)
    (hact : order.status = OrderStatus.Active.asU8)
    (hrem : x ≤ order.remaining_input_amount)
    (hwf : order.remaining_input_amount ≤ order.initial_input_amount)
    (hexp : order.expected_output_amount < U64_SIZE) :
    take_order_calcs order x y =
      if minimumOutput order x ≤ y then
        .ok { input_to_send_to_taker := x, output_to_send_to_maker := y }
      else .error .OrderOutputAmountInvalid := by
  have hinit : 0 < order.initial_input_amount := by omega
  have hminle : minimumOutput order x ≤ order.expected_output_amount := by
    rw [minimumOutput, divCeil_le_iff hinit]
    calc x * order.expected_output_amount
        ≤ order.initial_input_amount * order.expected_output_amount :=
          Nat.mul_le_mul_right _ (by omega)
      _ = order.expected_output_amount * order.initial_input_amount :=
          Nat.mul_comm _ _
  unfold take_order_calcs
  rw [if_neg (by omega), if_neg (by simp [hact]), if_neg (by omega),
    if_neg (by omega)]
  simp only [u64TryFrom, minimumOutput] at *
  rw [if_pos (by omega)]
  rcases le_or_lt (divCeil (x * order.expected_output_amount)
      order.initial_input_amount) y with hge | hlt
  · have hmax : y ⊔ divCeil (x * order.expected_output_amount)
        order.initial_input_amount = y := by omega
    rw [if_pos hge]
    simp [hmax]
  · have hne : ¬ divCeil (x * order.expected_output_amount)
        order.initial_input_amount ≤ y := by omega
    have hne2 : y ⊔ divCeil (x * order.expected_output_amount)
        order.initial_input_amount ≠ y := by omega
    rw [if_neg hne]
    simp [hne2]

/-! ## Claim C1: the proportional minimum output is a hard constraint -/

/-- The order of the spec's worked example: `initial_input_amount = 1000`,
`expected_output_amount = 2000`, freshly created (Active, untouched). -/
def exampleOrder : Order := create_order 1000 2000 0 0

/-- C1: for every Active order and every `input_amount` with
`0 < input_amount ≤ remaining_input_amount` (within the order
well-formedness invariants `remaining ≤ initial` and a `u64`-valued
expected output), `take_order_calcs` succeeds returning
`input_to_send_to_taker = input_amount` and
`output_to_send_to_maker = desired_output_amount` if and only if the
desired output reaches `ceil(input_amount * expected_output_amount /
initial_input_amount)`; below the minimum it fails with
`OrderOutputAmountInvalid` and never substitutes the minimum. -/
theorem C1_fill_minimum_output_hard_constraint (order : Order) (x y : Nat)
    (hx : 0 < x) (hact : order.status = OrderStatus.Active.asU8)
    (hrem : x ≤ order.remaining_input_amount)
    (hwf : order.remaining_input_amount ≤ order.initial_input_amount)
    (hexp : order.expected_output_amount < U64_SIZE) :
    (take_order_calcs order x y =
        .ok { input_to_send_to_taker := x, output_to_send_to_maker := y } ↔
      minimumOutput order x ≤ y) ∧
    (y < minimumOutput order x →
      take_order_calcs order x y = .error .OrderOutputAmountInvalid) := by
  rw [take_order_calcs_eq order x y hx hact hrem hwf hexp]
  refine ⟨⟨fun h => ?_, fun h => by rw [if_pos h]⟩, fun h => by
    rw [if_neg (by omega)]⟩
  by_contra hlt
  rw [if_neg hlt] at h
  exact Except.noConfusion h

/-- C1 witness: the spec's worked example; a fill of 500 against
`exampleOrder` fails at desired output 999 and succeeds at 1000. -/
theorem C1_witness :
    take_order_calcs exampleOrder 500 999 =
        .error .OrderOutputAmountInvalid ∧
      take_order_calcs exampleOrder 500 1000 =
        .ok { input_to_send_to_taker := 500, output_to_send_to_maker := 1000 } :=
  ⟨(C1_fill_minimum_output_hard_constraint exampleOrder 500 999 (by decide)
      (by decide) (by decide) (by decide) (by decide)).2 (by decide),
   (C1_fill_minimum_output_hard_constraint exampleOrder 500 1000 (by decide)
      (by decide) (by decide) (by decide) (by decide)).1.mpr (by decide)⟩

/-! ## Claim C2: the proportional floor is never violated -/

/-- C2: every successful fill computation satisfies
`output_to_send_to_maker * initial_input_amount ≥
input_to_send_to_taker * expected_output_amount` in exact unbounded
arithmetic, with equality when `initial_input_amount` divides
`input_amount * expected_output_amount` exactly and the caller supplies
exactly the minimum (the exact quotient). -/
theorem C2_fill_proportional_floor {order : Order} {x y : Nat}
    {eff : TakeOrderEffects} (h : take_order_calcs order x y = .ok eff) :
    eff.output_to_send_to_maker * order.initial_input_amount ≥
      eff.input_to_send_to_taker * order.expected_output_amount ∧
    (order.initial_input_amount ∣ x * order.expected_output_amount →
      y = x * order.expected_output_amount / order.initial_input_amount →
      eff.output_to_send_to_maker * order.initial_input_amount =
        eff.input_to_send_to_taker * order.expected_output_amount) := by
  obtain ⟨hin, hout, hx, hact, hrem, hinit, hmin, hlt⟩ :=
    take_order_calcs_ok_inversion h
  have h1 : x * order.expected_output_amount ≤
      minimumOutput order x * order.initial_input_amount := by
    unfold minimumOutput
    exact le_divCeil_mul hinit
  refine ⟨?_, fun hdvd hy => ?_⟩
  · rw [hin, hout]
    calc x * order.expected_output_amount
        ≤ minimumOutput order x * order.initial_input_amount := h1
      _ ≤ y * order.initial_input_amount := Nat.mul_le_mul_right _ hmin
  · rw [hin, hout, hy, Nat.div_mul_cancel hdvd]

/-- C2 witness: at the example fill (500 in, 1000 out, order 1000 → 2000)
the floor holds with equality: `1000 * 1000 = 500 * 2000`. -/
theorem C2_witness :
    (1000 : Nat) * exampleOrder.initial_input_amount ≥
        500 * exampleOrder.expected_output_amount ∧
      (1000 : Nat) * exampleOrder.initial_input_amount =
        500 * exampleOrder.expected_output_amount := by
  have h := @C2_fill_proportional_floor exampleOrder 500 1000
    { input_to_send_to_taker := 500, output_to_send_to_maker := 1000 }
    (by decide)
  exact ⟨h.1, h.2 (by decide) (by decide)⟩

/-! ## Claim C3: terminality of Filled and Cancelled -/

/-- A fill computation against an order whose status is not `Active`
always fails. -/
theorem take_order_calcs_failed_of_not_active {o : Order} {x y : Nat}
    (h : ¬ o.status = OrderStatus.Active.asU8) :
    failed (take_order_calcs o x y) = true := by
  unfold take_order_calcs
  by_cases hx : ¬ x > 0
  · rw [if_pos hx]
    rfl
  · rw [if_neg hx, if_pos h]
    rfl

/-- A fully filled order of the spec's worked example (both fills done,
`remaining_input_amount = 0`, `filled_output_amount = 2000`, status
`Filled`). -/
def filledOrder : Order :=
  { initial_input_amount := 1000
    expected_output_amount := 2000
    remaining_input_amount := 0
    filled_output_amount := 2000
    tip_amount := 0
    number_of_fills := 2
    order_type := 0
    status := OrderStatus.Filled.asU8
    flash_ix_lock := 0
    last_updated_timestamp := 0
    flash_start_taker_output_balance := 0 }

/-- A global config with no accrued tips and a zero close delay. -/
def zeroGlobalConfig : GlobalConfig :=
  { emergency_mode := 0
    flash_take_order_blocked := 0
    new_orders_blocked := 0
    orders_taking_blocked := 0
    host_fee_bps := 0
    order_close_delay_seconds := 0
    pda_authority_previous_lamports_balance := 0
    total_tip_amount := 0
    host_tip_amount := 0 }

/-- C3 counterexample: `close_order_and_claim_tip` accepts an order whose
status is `Filled` and succeeds, changing its status to `Cancelled` — so
`Filled` is not terminal and the claim as stated is false. -/
theorem C3_counterexample :
    filledOrder.status = OrderStatus.Filled.asU8 ∧
      (close_order_and_claim_tip filledOrder zeroGlobalConfig 0).map
        (fun p => p.1.status) = .ok OrderStatus.Cancelled.asU8 := by decide

/-- C3 amended: `Cancelled` is terminal — every operation fails on a
`Cancelled` order; `Filled` orders are rejected by `take_order` and both
flash fills (which require `Active`); but `close_order_and_claim_tip`
accepts `Filled` as well as `Active` orders and, when it succeeds, moves
the order to `Cancelled` (reclaiming the account) — the one transition out
of `Filled`; no operation ever moves an order out of
{`Filled`, `Cancelled`} back to `Active`. -/
theorem C3_amended_terminal_states (gc : GlobalConfig) (o : Order)
    (x tip : Nat) (ts : Int) (y cts : Nat) :
    ((o.status = OrderStatus.Filled.asU8 ∨
        o.status = OrderStatus.Cancelled.asU8) →
      failed (take_order gc o x tip ts y) = true ∧
        failed (flash_withdraw_order_input o x y) = true ∧
        failed (flash_pay_order_output gc o x y tip ts) = true) ∧
    (o.status = OrderStatus.Cancelled.asU8 →
      failed (close_order_and_claim_tip o gc cts) = true) ∧
    (∀ res, close_order_and_claim_tip o gc cts = .ok res →
      res.1.status = OrderStatus.Cancelled.asU8) := by
  have hfail : ∀ hna : ¬ o.status = OrderStatus.Active.asU8,
      failed (take_order gc o x tip ts y) = true ∧
        failed (flash_withdraw_order_input o x y) = true ∧
        failed (flash_pay_order_output gc o x y tip ts) = true := by
    intro hna
    have hc := @take_order_calcs_failed_of_not_active o x y hna
    refine ⟨?_, ?_, ?_⟩
    · unfold take_order
      split
      · rfl
      · cases hcalc : take_order_calcs o x y with
        | error e => rfl
        | ok eff =>
          rw [hcalc] at hc
          exact absurd hc (by simp [failed])
    · unfold flash_withdraw_order_input
      cases hcalc : take_order_calcs o x y with
      | error e => rfl
      | ok eff =>
        rw [hcalc] at hc
        exact absurd hc (by simp [failed])
    · unfold flash_pay_order_output
      cases hcalc : take_order_calcs o x y with
      | error e => rfl
      | ok eff =>
        rw [hcalc] at hc
        exact absurd hc (by simp [failed])
  refine ⟨fun hor => hfail ?_, fun hcan => ?_, fun res hres => ?_⟩
  · rcases hor with h | h <;> simp [h, OrderStatus.asU8]
  · unfold close_order_and_claim_tip
    rw [if_pos (by simp [hcan, OrderStatus.asU8])]
    rfl
  · unfold close_order_and_claim_tip at hres
    split at hres
    · exact Except.noConfusion hres
    · split at hres
      · exact Except.noConfusion hres
      · split at hres
        · exact Except.noConfusion hres
        · split at hres
          · exact Except.noConfusion hres
          · split at hres
            · exact Except.noConfusion hres
            · cases hres
              rfl

/-- C3 witness: a `Cancelled` order (the filled example order after a
close) is rejected by every operation, and a successful close always
lands on `Cancelled`. -/
theorem C3_witness :
    failed (take_order zeroGlobalConfig
        { filledOrder with status := OrderStatus.Cancelled.asU8 }
        1 0 0 1) = true ∧
      failed (close_order_and_claim_tip
        { filledOrder with status := OrderStatus.Cancelled.asU8 }
        zeroGlobalConfig 0) = true := by
  have h := C3_amended_terminal_states zeroGlobalConfig
    { filledOrder with status := OrderStatus.Cancelled.asU8 } 1 0 0 1 0
  exact ⟨(h.1 (Or.inr rfl)).1, h.2.1 rfl⟩

/-! ## Inversion lemmas for the accounting operations -/

theorem failed_of_no_ok {α : Type} {r : Except LimoError α}
    (h : ∀ a, r ≠ .ok a) : failed r = true := by
  cases r with
  | error e => rfl
  | ok a => exact absurd rfl (h a)

/-- Inversion of a successful tip split. -/
theorem tip_calcs_ok_inversion {gc : GlobalConfig} {tip : Nat}
    {tips : TipCalcs} (h : tip_calcs gc tip = .ok tips) :
    divCeil (tip * gc.host_fee_bps) 10000 ≤ tip ∧
      tips.host_tip = divCeil (tip * gc.host_fee_bps) 10000 ∧
      tips.maker_tip = tip - divCeil (tip * gc.host_fee_bps) 10000 := by
  unfold tip_calcs at h
  dsimp only at h
  split at h
  · exact Except.noConfusion h
  · rename_i m hm
    cases h
    unfold checkedSub at hm
    split at hm
    · cases hm
      exact ⟨by assumption, rfl, rfl⟩
    · exact Option.noConfusion hm

/-- Inversion of a successful fill-accounting update: all checked steps
were in range and the resulting records are the exact-arithmetic updates. -/
theorem update_accounting_ok_inversion {gc : GlobalConfig} {o : Order}
    {inp out tip : Nat} {ts : Int} {res : GlobalConfig × Order}
    (h : update_take_order_accounting_and_tips gc o inp out tip ts = .ok res) :
    inp ≤ o.remaining_input_amount ∧
      o.filled_output_amount + out < U64_SIZE ∧
      divCeil (tip * gc.host_fee_bps) 10000 ≤ tip ∧
      gc.host_tip_amount + divCeil (tip * gc.host_fee_bps) 10000 < U64_SIZE ∧
      o.tip_amount + (tip - divCeil (tip * gc.host_fee_bps) 10000) <
        U64_SIZE ∧
      gc.total_tip_amount + tip < U64_SIZE ∧
      o.number_of_fills + 1 < U64_SIZE ∧ 0 ≤ ts ∧
      res.1 = { gc with
                  host_tip_amount := gc.host_tip_amount +
                    divCeil (tip * gc.host_fee_bps) 10000,
                  total_tip_amount := gc.total_tip_amount + tip } ∧
      res.2 = { o with
                  remaining_input_amount := o.remaining_input_amount - inp,
                  filled_output_amount := o.filled_output_amount + out,
                  tip_amount := o.tip_amount +
                    (tip - divCeil (tip * gc.host_fee_bps) 10000),
                  number_of_fills := o.number_of_fills + 1,
                  status :=
                    if o.remaining_input_amount - inp = 0 ∧
                        o.filled_output_amount + out ≥
                          o.expected_output_amount then
                      OrderStatus.Filled.asU8
                    else o.status,
                  last_updated_timestamp := ts.toNat } := by
  unfold update_take_order_accounting_and_tips at h
  split at h
  · exact Except.noConfusion h
  · rename_i remaining hrem
    split at h
    · exact Except.noConfusion h
    · rename_i filled hfill
      split at h
      · exact Except.noConfusion h
      · rename_i tips htips
        split at h
        · exact Except.noConfusion h
        · rename_i host_total hhost
          split at h
          · exact Except.noConfusion h
          · rename_i order_tip hotip
            split at h
            · exact Except.noConfusion h
            · rename_i tip_total htotal
              split at h
              · exact Except.noConfusion h
              · rename_i fills hfills
                split at h
                · exact Except.noConfusion h
                · rename_i hts
                  cases h
                  obtain ⟨htle, hhost_eq, hmaker_eq⟩ :=
                    tip_calcs_ok_inversion htips
                  unfold checkedSub at hrem
                  unfold checkedAdd at hfill htotal
                  unfold checkedAdd at hhost hotip
                  unfold panickingAdd at hfills
                  split at hrem
                  case isFalse => exact Option.noConfusion hrem
                  split at hfill
                  case isFalse => exact Option.noConfusion hfill
                  split at hhost
                  case isFalse => exact Option.noConfusion hhost
                  split at hotip
                  case isFalse => exact Option.noConfusion hotip
                  split at htotal
                  case isFalse => exact Option.noConfusion htotal
                  split at hfills
                  case isFalse => exact Except.noConfusion hfills
                  cases hrem
                  cases hfill
                  cases hhost
                  cases hotip
                  cases htotal
                  cases hfills
                  rw [hhost_eq, hmaker_eq] at *
                  refine ⟨by assumption, by assumption, htle, ?_, ?_, ?_, ?_,
                    by omega, rfl, ?_⟩
                  · rw [hhost_eq] at *
                    assumption
                  · rw [hmaker_eq] at *
                    assumption
                  · assumption
                  · assumption
                  · rw [hhost_eq, hmaker_eq]

/-- Inversion of a successful order close. -/
theorem close_ok_inversion {o : Order} {gc : GlobalConfig} {cts : Nat}
    {res : Order × GlobalConfig}
    (h : close_order_and_claim_tip o gc cts = .ok res) :
    (o.status = OrderStatus.Active.asU8 ∨
        o.status = OrderStatus.Filled.asU8) ∧
      o.flash_ix_lock = 0 ∧ o.tip_amount ≤ gc.total_tip_amount ∧
      cts ≥ o.last_updated_timestamp + gc.order_close_delay_seconds ∧
      res.1 = { o with status := OrderStatus.Cancelled.asU8 } ∧
      res.2 = { gc with
                  total_tip_amount := gc.total_tip_amount - o.tip_amount } := by
  unfold close_order_and_claim_tip at h
  split at h
  · exact Except.noConfusion h
  · split at h
    · exact Except.noConfusion h
    · split at h
      · exact Except.noConfusion h
      · split at h
        · exact Except.noConfusion h
        · rename_i hstat hoverflow htime hlock
          split at h
          · exact Except.noConfusion h
          · rename_i total htotal
            cases h
            unfold panickingSub at htotal
            split at htotal
            · cases htotal
              exact ⟨by omega, by omega, by assumption, by omega, rfl, rfl⟩
            · exact Except.noConfusion htotal

/-- Inversion of a successful host-tip withdrawal. -/
theorem withdraw_host_tip_ok_inversion {gc : GlobalConfig} {bal : Nat}
    {res : GlobalConfig × Nat} (h : withdraw_host_tip gc bal = .ok res) :
    gc.host_tip_amount ≤ bal ∧
      gc.host_tip_amount ≤ gc.total_tip_amount ∧
      res.1 = { gc with
                  total_tip_amount :=
                    gc.total_tip_amount - gc.host_tip_amount,
                  host_tip_amount := 0 } ∧
      res.2 = gc.host_tip_amount := by
  unfold withdraw_host_tip at h
  split at h
  · exact Except.noConfusion h
  · rename_i hbal
    split at h
    · exact Except.noConfusion h
    · rename_i total htotal
      cases h
      unfold panickingSub at htotal
      split at htotal
      · cases htotal
        exact ⟨by omega, by assumption, rfl, rfl⟩
      · exact Except.noConfusion htotal

/-- Inversion of a successful custodial-balance reconciliation. -/
theorem validate_pda_ok_inversion {gc : GlobalConfig} {bal tip : Nat}
    {res : GlobalConfig}
    (h : validate_pda_authority_balance_and_update_accounting gc bal tip =
      .ok res) :
    gc.pda_authority_previous_lamports_balance ≤ bal ∧
      tip ≤ bal - gc.pda_authority_previous_lamports_balance ∧
      gc.total_tip_amount ≤ bal ∧
      res = { gc with pda_authority_previous_lamports_balance := bal } := by
  unfold validate_pda_authority_balance_and_update_accounting at h
  split at h
  · exact Except.noConfusion h
  · rename_i delta hdelta
    unfold panickingSub at hdelta
    split at h
    · exact Except.noConfusion h
    · split at h
      · exact Except.noConfusion h
      · rename_i htip hbal
        cases h
        split at hdelta
        · cases hdelta
          exact ⟨by assumption, by omega, by omega, rfl⟩
        · exact Except.noConfusion hdelta

/-! ## Claim C5: the tip split -/

/-- C5: for every `tip_amount` and `host_fee_bps <= 10000` the split
computes `host_tip = ceil(tip_amount * host_fee_bps / 10000)` and
`maker_tip = tip_amount - host_tip`; it always succeeds (the checked
subtraction's failure branch `host_tip > tip_amount` is unreachable), and
`host_tip + maker_tip = tip_amount`. -/
theorem C5_tip_split (gc : GlobalConfig) (tip_amount : Nat)
    (hbps : gc.host_fee_bps ≤ 10000) :
    tip_calcs gc tip_amount =
        .ok { host_tip := divCeil (tip_amount * gc.host_fee_bps) 10000,
              maker_tip := tip_amount -
                divCeil (tip_amount * gc.host_fee_bps) 10000 } ∧
      divCeil (tip_amount * gc.host_fee_bps) 10000 ≤ tip_amount ∧
      divCeil (tip_amount * gc.host_fee_bps) 10000 +
          (tip_amount - divCeil (tip_amount * gc.host_fee_bps) 10000) =
        tip_amount := by
  have hle : divCeil (tip_amount * gc.host_fee_bps) 10000 ≤ tip_amount := by
    rw [divCeil_le_iff (by norm_num)]
    exact Nat.mul_le_mul_left _ hbps
  refine ⟨?_, hle, by omega⟩
  unfold tip_calcs checkedSub
  dsimp only
  rw [if_pos hle]

/-- C5 witness: the spec's example `host_fee_bps = 250`,
`tip_amount = 101` gives `host_tip = 3`, `maker_tip = 98`. -/
theorem C5_witness :
    tip_calcs { zeroGlobalConfig with host_fee_bps := 250 } 101 =
      .ok { host_tip := 3, maker_tip := 98 } := by
  have h := C5_tip_split { zeroGlobalConfig with host_fee_bps := 250 } 101
    (by decide)
  exact h.1

/-! ## Claim C4: all balance arithmetic is overflow-checked -/

/-- C4: every addition and subtraction on the balance and accounting
fields is range-checked: in every state where the step would leave the
`u64` domain the operation fails (with `MathOverflow` for the
`checked_sub`/`checked_add` sites, or the fatal abort of the build
profile's overflow check for the plain `-=`/`-`/`+=` sites), and a
successful call performs the exact unbounded-integer update — never a
wrapped or saturated one. -/
theorem C4_checked_balance_arithmetic (gc : GlobalConfig) (o : Order)
    (inp out tip cts bal : Nat) (ts : Int) :
    (gc.total_tip_amount < o.tip_amount →
        failed (close_order_and_claim_tip o gc cts) = true) ∧
    (∀ res, close_order_and_claim_tip o gc cts = .ok res →
        o.tip_amount ≤ gc.total_tip_amount ∧
        res.2.total_tip_amount = gc.total_tip_amount - o.tip_amount) ∧
    (gc.total_tip_amount < gc.host_tip_amount →
        failed (withdraw_host_tip gc bal) = true) ∧
    (∀ res, withdraw_host_tip gc bal = .ok res →
        gc.host_tip_amount ≤ gc.total_tip_amount ∧
        res.1.total_tip_amount = gc.total_tip_amount - gc.host_tip_amount ∧
        res.1.host_tip_amount = 0) ∧
    (bal < gc.pda_authority_previous_lamports_balance →
        failed (validate_pda_authority_balance_and_update_accounting
          gc bal tip) = true) ∧
    (o.remaining_input_amount < inp →
        failed (update_take_order_accounting_and_tips gc o inp out tip ts) =
          true) ∧
    (¬ o.filled_output_amount + out < U64_SIZE →
        failed (update_take_order_accounting_and_tips gc o inp out tip ts) =
          true) ∧
    (¬ gc.host_tip_amount + divCeil (tip * gc.host_fee_bps) 10000 <
          U64_SIZE →
        failed (update_take_order_accounting_and_tips gc o inp out tip ts) =
          true) ∧
    (¬ o.tip_amount + (tip - divCeil (tip * gc.host_fee_bps) 10000) <
          U64_SIZE →
        failed (update_take_order_accounting_and_tips gc o inp out tip ts) =
          true) ∧
    (¬ gc.total_tip_amount + tip < U64_SIZE →
        failed (update_take_order_accounting_and_tips gc o inp out tip ts) =
          true) ∧
    (¬ o.number_of_fills + 1 < U64_SIZE →
        failed (update_take_order_accounting_and_tips gc o inp out tip ts) =
          true) ∧
    (∀ res, update_take_order_accounting_and_tips gc o inp out tip ts =
          .ok res →
        inp ≤ o.remaining_input_amount ∧
        res.2.remaining_input_amount = o.remaining_input_amount - inp ∧
        res.2.filled_output_amount = o.filled_output_amount + out ∧
        res.2.tip_amount = o.tip_amount +
          (tip - divCeil (tip * gc.host_fee_bps) 10000) ∧
        res.2.number_of_fills = o.number_of_fills + 1 ∧
        res.1.host_tip_amount = gc.host_tip_amount +
          divCeil (tip * gc.host_fee_bps) 10000 ∧
        res.1.total_tip_amount = gc.total_tip_amount + tip ∧
        o.filled_output_amount + out < U64_SIZE ∧
        gc.total_tip_amount + tip < U64_SIZE) := by
  refine ⟨?_, ?_, ?_, ?_, ?_, ?_, ?_, ?_, ?_, ?_, ?_, ?_⟩
  · intro hlt
    refine failed_of_no_ok fun res hok => ?_
    have := (close_ok_inversion hok).2.2.1
    omega
  · intro res hok
    obtain ⟨-, -, hle, -, -, hgc⟩ := close_ok_inversion hok
    rw [hgc]
    exact ⟨hle, rfl⟩
  · intro hlt
    refine failed_of_no_ok fun res hok => ?_
    have := (withdraw_host_tip_ok_inversion hok).2.1
    omega
  · intro res hok
    obtain ⟨-, hle, hgc, -⟩ := withdraw_host_tip_ok_inversion hok
    rw [hgc]
    exact ⟨hle, rfl, rfl⟩
  · intro hlt
    refine failed_of_no_ok fun res hok => ?_
    have := (validate_pda_ok_inversion hok).1
    omega
  · intro hlt
    refine failed_of_no_ok fun res hok => ?_
    have := (update_accounting_ok_inversion hok).1
    omega
  · intro hlt
    refine failed_of_no_ok fun res hok => ?_
    have := (update_accounting_ok_inversion hok).2.1
    omega
  · intro hlt
    refine failed_of_no_ok fun res hok => ?_
    have := (update_accounting_ok_inversion hok).2.2.2.1
    omega
  · intro hlt
    refine failed_of_no_ok fun res hok => ?_
    have := (update_accounting_ok_inversion hok).2.2.2.2.1
    omega
  · intro hlt
    refine failed_of_no_ok fun res hok => ?_
    have := (update_accounting_ok_inversion hok).2.2.2.2.2.1
    omega
  · intro hlt
    refine failed_of_no_ok fun res hok => ?_
    have := (update_accounting_ok_inversion hok).2.2.2.2.2.2.1
    omega
  · intro res hok
    obtain ⟨h1, h2, -, -, -, h3, -, -, hgc, ho⟩ :=
      update_accounting_ok_inversion hok
    rw [hgc, ho]
    exact ⟨h1, rfl, rfl, rfl, rfl, rfl, rfl, h2, h3⟩

/-- C4 witness: a close with accrued order tip above the global total
fails; the overflow state of each accounting step at a concrete input is
rejected. -/
theorem C4_witness :
    failed (close_order_and_claim_tip { filledOrder with tip_amount := 5 }
        zeroGlobalConfig 0) = true ∧
      failed (update_take_order_accounting_and_tips zeroGlobalConfig
        filledOrder 1 0 0 0) = true := by
  have h1 := (C4_checked_balance_arithmetic zeroGlobalConfig
    { filledOrder with tip_amount := 5 } 1 0 0 0 0 0).1 (by decide)
  have h2 := (C4_checked_balance_arithmetic zeroGlobalConfig
    filledOrder 1 0 0 0 0 0).2.2.2.2.2.1 (by decide)
  exact ⟨h1, h2⟩

/-! ## Claim C7: the flash lock -/

/-- Inversion of a successful flash input withdrawal (`start`). -/
theorem flash_withdraw_ok_inversion {o : Order} {x y : Nat}
    {res : Order × TakeOrderEffects}
    (h : flash_withdraw_order_input o x y = .ok res) :
    o.flash_ix_lock = 0 ∧ take_order_calcs o x y = .ok res.2 ∧
      res.1 = { o with flash_ix_lock := 1 } := by
  unfold flash_withdraw_order_input at h
  split at h
  · exact Except.noConfusion h
  · rename_i eff heff
    split at h
    · exact Except.noConfusion h
    · rename_i hlock
      cases h
      exact ⟨by simpa using hlock, heff, rfl⟩

/-- Inversion of a successful flash output payment (`end`). -/
theorem flash_pay_ok_inversion {gc : GlobalConfig} {o : Order}
    {x y tip : Nat} {ts : Int} {res : GlobalConfig × Order × TakeOrderEffects}
    (h : flash_pay_order_output gc o x y tip ts = .ok res) :
    o.flash_ix_lock = 1 ∧ take_order_calcs o x y = .ok res.2.2 ∧
      res.2.1.flash_ix_lock = 0 ∧
      ∃ o2, update_take_order_accounting_and_tips gc o
          res.2.2.input_to_send_to_taker res.2.2.output_to_send_to_maker
          tip ts = .ok (res.1, o2) ∧
        res.2.1 = { o2 with flash_ix_lock := 0 } := by
  unfold flash_pay_order_output at h
  split at h
  · exact Except.noConfusion h
  · rename_i eff heff
    split at h
    · exact Except.noConfusion h
    · rename_i hlock
      split at h
      · exact Except.noConfusion h
      · rename_i pair hpair
        cases h
        exact ⟨by simpa using hlock, heff, rfl, pair, hpair, rfl⟩

/-- Inversion of a successful `take_order`. -/
theorem take_order_ok_inversion {gc : GlobalConfig} {o : Order}
    {x tip y : Nat} {ts : Int}
    {res : GlobalConfig × Order × TakeOrderEffects}
    (h : take_order gc o x tip ts y = .ok res) :
    o.flash_ix_lock = 0 ∧ take_order_calcs o x y = .ok res.2.2 ∧
      update_take_order_accounting_and_tips gc o
          res.2.2.input_to_send_to_taker res.2.2.output_to_send_to_maker
          tip ts = .ok (res.1, res.2.1) := by
  unfold take_order at h
  split at h
  · exact Except.noConfusion h
  · rename_i hlock
    split at h
    · exact Except.noConfusion h
    · rename_i eff heff
      split at h
      · exact Except.noConfusion h
      · rename_i pair hpair
        cases h
        exact ⟨by simpa using hlock, heff, hpair⟩

/-- C7: the flash lock is exclusive and bracketing.  `take_order` fails
with `OrderWithinFlashOperation` whenever the lock is set;
`close_order_and_claim_tip` never succeeds with the lock set (and reports
`OrderWithinFlashOperation` once the status and cooldown gates pass); the
flash `start` fails whenever the lock is already set (with
`OrderWithinFlashOperation` once the fill computation passes) and on
success sets it to 1; the flash `end` fails whenever the lock is not set
(with `OrderNotWithinFlashOperation` once the fill computation passes) and
on success clears it to 0. -/
theorem C7_flash_lock_exclusion (gc : GlobalConfig) (o : Order)
    (x tip y cts : Nat) (ts : Int) :
    (¬ o.flash_ix_lock = 0 →
        take_order gc o x tip ts y = .error .OrderWithinFlashOperation) ∧
    (¬ o.flash_ix_lock = 0 →
        failed (close_order_and_claim_tip o gc cts) = true) ∧
    (¬ o.flash_ix_lock = 0 →
        (o.status = OrderStatus.Active.asU8 ∨
          o.status = OrderStatus.Filled.asU8) →
        o.last_updated_timestamp + gc.order_close_delay_seconds <
          U64_SIZE →
        cts ≥ o.last_updated_timestamp + gc.order_close_delay_seconds →
        close_order_and_claim_tip o gc cts =
          .error .OrderWithinFlashOperation) ∧
    (¬ o.flash_ix_lock = 0 →
        failed (flash_withdraw_order_input o x y) = true) ∧
    (∀ eff, take_order_calcs o x y = .ok eff → ¬ o.flash_ix_lock = 0 →
        flash_withdraw_order_input o x y =
          .error .OrderWithinFlashOperation) ∧
    (∀ res, flash_withdraw_order_input o x y = .ok res →
        o.flash_ix_lock = 0 ∧ res.1.flash_ix_lock = 1) ∧
    (¬ o.flash_ix_lock = 1 →
        failed (flash_pay_order_output gc o x y tip ts) = true) ∧
    (∀ eff, take_order_calcs o x y = .ok eff → ¬ o.flash_ix_lock = 1 →
        flash_pay_order_output gc o x y tip ts =
          .error .OrderNotWithinFlashOperation) ∧
    (∀ res, flash_pay_order_output gc o x y tip ts = .ok res →
        o.flash_ix_lock = 1 ∧ res.2.1.flash_ix_lock = 0) := by
  refine ⟨?_, ?_, ?_, ?_, ?_, ?_, ?_, ?_, ?_⟩
  · intro hlock
    unfold take_order
    rw [if_pos hlock]
  · intro hlock
    refine failed_of_no_ok fun res hok => ?_
    exact hlock (close_ok_inversion hok).2.1
  · intro hlock hstat hnover htime
    unfold close_order_and_claim_tip
    rw [if_neg (by simp only [not_not]; exact hstat), if_neg (by omega),
      if_neg (by omega), if_pos hlock]
  · intro hlock
    refine failed_of_no_ok fun res hok => ?_
    exact hlock (flash_withdraw_ok_inversion hok).1
  · intro eff heff hlock
    unfold flash_withdraw_order_input
    rw [heff]
    dsimp only
    rw [if_pos hlock]
  · intro res hok
    obtain ⟨hl, -, hres⟩ := flash_withdraw_ok_inversion hok
    rw [hres]
    exact ⟨hl, rfl⟩
  · intro hlock
    refine failed_of_no_ok fun res hok => ?_
    exact hlock (flash_pay_ok_inversion hok).1
  · intro eff heff hlock
    unfold flash_pay_order_output
    rw [heff]
    dsimp only
    rw [if_pos hlock]
  · intro res hok
    obtain ⟨hl, -, hres, -⟩ := flash_pay_ok_inversion hok
    exact ⟨hl, hres⟩

/-- C7 witness: `take_order` against a locked (lock = 1) example order
fails with `OrderWithinFlashOperation`. -/
theorem C7_witness :
    take_order zeroGlobalConfig { exampleOrder with flash_ix_lock := 1 }
      1 0 0 2 = .error .OrderWithinFlashOperation :=
  (C7_flash_lock_exclusion zeroGlobalConfig
    { exampleOrder with flash_ix_lock := 1 } 1 0 2 0 0).1 (by decide)

/-! ## Claim C9: full consumption always reaches Filled -/

/-- Sequential application of `take_order` fills, each given as
(input_amount, declared output_amount, tip_amount); the timestamp is held
at 0 (it does not enter the accounting arithmetic). -/
def applyFills (gc : GlobalConfig) (o : Order) :
    List (Nat × Nat × Nat) → Except LimoError (GlobalConfig × Order)
  | [] => .ok (gc, o)
  | (x, y, tip) :: rest =>
    match take_order gc o x tip 0 y with
    | .error e => .error e
    | .ok (gc2, o2, _) => applyFills gc2 o2 rest

/-- The inductive invariant of a partially filled order created with
`initial_input_amount = I`, `expected_output_amount = E`: the accumulated
output always covers the ceiling-proportional share of the consumed
input, and once the input is exhausted the order is `Filled` with at
least `E` paid. -/
def FillInvariant (I E : Nat) (o : Order) : Prop :=
  o.initial_input_amount = I ∧ o.expected_output_amount = E ∧
    o.remaining_input_amount ≤ I ∧
    divCeil ((I - o.remaining_input_amount) * E) I ≤
      o.filled_output_amount ∧
    (o.remaining_input_amount = 0 →
      o.status = OrderStatus.Filled.asU8 ∧ E ≤ o.filled_output_amount)

/-- One successful `take_order` preserves the fill invariant:
superadditivity of the per-fill ceilings carries the proportional bound
through the update, and a fill that exhausts the input necessarily
triggers the `Filled` transition. -/
theorem fill_step_invariant {I E : Nat} (hI : 0 < I) {gc : GlobalConfig}
    {o : Order} {x tip y : Nat} {ts : Int}
    {res : GlobalConfig × Order × TakeOrderEffects}
    (hinv : FillInvariant I E o) (h : take_order gc o x tip ts y = .ok res) :
    FillInvariant I E res.2.1 := by
  obtain ⟨hlock, hcalcs, hupd⟩ := take_order_ok_inversion h
  obtain ⟨hin, hout, hx, hact, hrem, hinit, hmin, hltsz⟩ :=
    take_order_calcs_ok_inversion hcalcs
  obtain ⟨hi1, hi2, hi3, hi4, hi5⟩ := hinv
  obtain ⟨hile, -, -, -, -, -, -, -, -, ho⟩ :=
    update_accounting_ok_inversion hupd
  dsimp only at ho
  rw [hin] at hile ho
  rw [hout] at ho
  have hminIE : divCeil (x * E) I ≤ y := by
    rw [← hi1, ← hi2]
    exact hmin
  have hsplit : I - (o.remaining_input_amount - x) =
      (I - o.remaining_input_amount) + x := by omega
  have hsuper : divCeil ((I - (o.remaining_input_amount - x)) * E) I ≤
      o.filled_output_amount + y := by
    rw [hsplit, Nat.add_mul]
    calc divCeil ((I - o.remaining_input_amount) * E + x * E) I
        ≤ divCeil ((I - o.remaining_input_amount) * E) I +
            divCeil (x * E) I := divCeil_add_le hI
      _ ≤ o.filled_output_amount + y := Nat.add_le_add hi4 hminIE
  unfold FillInvariant
  rw [ho]
  dsimp only
  refine ⟨hi1, hi2, by omega, hsuper, ?_⟩
  intro hzero
  have hfull : E ≤ o.filled_output_amount + y := by
    have hs := hsuper
    rw [hzero, Nat.sub_zero, divCeil_mul_self hI] at hs
    exact hs
  refine ⟨?_, hfull⟩
  rw [if_pos ⟨hzero, by rw [hi2]; exact hfull⟩]

/-- Every successful fill sequence preserves the fill invariant. -/
theorem applyFills_invariant {I E : Nat} (hI : 0 < I) :
    ∀ (fills : List (Nat × Nat × Nat)) (gc : GlobalConfig) (o : Order),
      FillInvariant I E o → ∀ res, applyFills gc o fills = .ok res →
        FillInvariant I E res.2
  | [], gc, o, hinv, res, h => by
    unfold applyFills at h
    cases h
    exact hinv
  | (x, y, tip) :: rest, gc, o, hinv, res, h => by
    unfold applyFills at h
    split at h
    · exact Except.noConfusion h
    · rename_i gc2 o2 eff hstep
      exact applyFills_invariant hI rest gc2 o2
        (fill_step_invariant hI hinv hstep) res h

/-- C9: for every order created with `initial_input_amount = I > 0` and
`expected_output_amount = E`, and every sequence of successful fills, if
the fills drive `remaining_input_amount` to 0 then the accumulated
`filled_output_amount` is at least `E` (superadditivity of the per-fill
ceiling minimums), and the order's status is `Filled` — the
`filled_output_amount >= expected_output_amount` conjunct of the `Filled`
transition is automatic. -/
theorem C9_full_consumption_reaches_filled (I E : Nat) (hI : 0 < I)
    (fills : List (Nat × Nat × Nat)) (gc : GlobalConfig)
    (res : GlobalConfig × Order)
    (h : applyFills gc (create_order I E 0 0) fills = .ok res)
    (hrem : res.2.remaining_input_amount = 0) :
    E ≤ res.2.filled_output_amount ∧
      res.2.status = OrderStatus.Filled.asU8 := by
  have hinv0 : FillInvariant I E (create_order I E 0 0) := by
    refine ⟨rfl, rfl, Nat.le_refl I, ?_, fun h0 => absurd h0 (by
      simp only [create_order]
      omega)⟩
    simp only [create_order, Nat.sub_self, Nat.zero_mul]
    unfold divCeil
    have : (0 + I - 1) / I = 0 := Nat.div_eq_of_lt (by omega)
    omega
  have hinv := applyFills_invariant hI fills gc (create_order I E 0 0)
    hinv0 res h
  obtain ⟨-, -, -, -, hdone⟩ := hinv
  obtain ⟨hstat, hfill⟩ := hdone hrem
  exact ⟨hfill, hstat⟩

/-- C9 witness: two fills of 500 at output 1000 each against the
1000 → 2000 example order exhaust the input and land on `Filled` with
2000 paid. -/
theorem C9_witness :
    (2000 : Nat) ≤ filledOrder.filled_output_amount ∧
      filledOrder.status = OrderStatus.Filled.asU8 :=
  C9_full_consumption_reaches_filled 1000 2000 (by decide)
    [(500, 1000, 0), (500, 1000, 0)] zeroGlobalConfig
    (zeroGlobalConfig, filledOrder) (by decide) (by decide)

/-! ## Characterization of the flash instruction scanners -/

theorem allowed_ne_limo {p : Nat} (h : program_id_allowed p = true) :
    p ≠ LIMO_PROGRAM_ID := by
  simp only [program_id_allowed, COMPUTE_BUDGET_PUBKEY, TOKEN_PROGRAM_ID,
    TOKEN_2022_ID, ASSOCIATED_TOKEN_ID, LIMO_PROGRAM_ID,
    decide_eq_true_eq] at h ⊢
  omega

/-- The prefix loop accepts a range of loadable, allow-listed
instructions. -/
theorem checkAllowedRangeAux_ok (instrs : List Instruction) :
    ∀ (k lo : Nat),
      (∀ i, i < k → ∃ ix, instrs[lo + i]? = some ix ∧
        program_id_allowed ix.program_id = true) →
      checkAllowedRangeAux instrs lo k = .ok ()
  | 0, lo, _ => rfl
  | k + 1, lo, h => by
    obtain ⟨ix, hix, hallow⟩ := h 0 (by omega)
    unfold checkAllowedRangeAux loadInstructionAt
    rw [Nat.add_zero] at hix
    rw [hix]
    dsimp only
    rw [if_pos hallow]
    exact checkAllowedRangeAux_ok instrs k (lo + 1) fun i hi => by
      rw [show lo + 1 + i = lo + (i + 1) from by omega]
      exact h (i + 1) (by omega)

/-- The prefix loop rejects the range at its first non-allow-listed
instruction. -/
theorem checkAllowedRangeAux_err (instrs : List Instruction) :
    ∀ (f k lo : Nat), f < k →
      (∀ i, i < f → ∃ ix, instrs[lo + i]? = some ix ∧
        program_id_allowed ix.program_id = true) →
      (∃ ixf, instrs[lo + f]? = some ixf ∧
        ¬ program_id_allowed ixf.program_id = true) →
      checkAllowedRangeAux instrs lo k = .error .FlashTxWithUnexpectedIxs
  | 0, k, lo, hk, _, ⟨ixf, hixf, hbad⟩ => by
    obtain ⟨k', rfl⟩ : ∃ k', k = k' + 1 := ⟨k - 1, by omega⟩
    unfold checkAllowedRangeAux loadInstructionAt
    rw [Nat.add_zero] at hixf
    rw [hixf]
    dsimp only
    rw [if_neg hbad]
  | f + 1, k, lo, hk, hpre, hbad => by
    obtain ⟨k', rfl⟩ : ∃ k', k = k' + 1 := ⟨k - 1, by omega⟩
    obtain ⟨ix, hix, hallow⟩ := hpre 0 (by omega)
    unfold checkAllowedRangeAux loadInstructionAt
    rw [Nat.add_zero] at hix
    rw [hix]
    dsimp only
    rw [if_pos hallow]
    refine checkAllowedRangeAux_err instrs f k' (lo + 1) (by omega)
      (fun i hi => ?_) ?_
    · rw [show lo + 1 + i = lo + (i + 1) from by omega]
      exact hpre (i + 1) (by omega)
    · obtain ⟨ixf, hixf, hb⟩ := hbad
      refine ⟨ixf, ?_, hb⟩
      rw [show lo + 1 + f = lo + (f + 1) from by omega]
      exact hixf

theorem scanForLimo_out_of_range {instrs : List Instruction} {i : Nat}
    (h : instrs.length ≤ i) : scanForLimo instrs i = none := by
  unfold scanForLimo
  rw [List.drop_eq_nil_of_le h]
  rfl

theorem scanForLimo_step {instrs : List Instruction} {i : Nat}
    {ix : Instruction} (h : instrs[i]? = some ix) :
    scanForLimo instrs i =
      if ix.program_id = LIMO_PROGRAM_ID then some (i, ix)
      else scanForLimo instrs (i + 1) := by
  have hi : i < instrs.length := by
    by_contra hle
    rw [List.getElem?_eq_none (by omega)] at h
    exact Option.noConfusion h
  have hget : instrs[i] = ix := by
    rw [List.getElem?_eq_getElem hi] at h
    exact Option.some.inj h
  unfold scanForLimo
  rw [List.drop_eq_getElem_cons hi, hget]
  rfl

/-- The forward scan finds nothing when no instruction from this program
remains. -/
theorem scanForLimo_none (instrs : List Instruction) (i : Nat)
    (h : ∀ j ix, i ≤ j → instrs[j]? = some ix →
      ix.program_id ≠ LIMO_PROGRAM_ID) :
    scanForLimo instrs i = none := by
  cases hi : instrs[i]? with
  | none =>
    refine scanForLimo_out_of_range ?_
    by_contra hlt
    rw [List.getElem?_eq_getElem (by omega)] at hi
    exact Option.noConfusion hi
  | some ix =>
    rw [scanForLimo_step hi, if_neg (h i ix (Nat.le_refl i) hi)]
    exact scanForLimo_none instrs (i + 1) fun j jx hj hjx =>
      h j jx (by omega) hjx
  termination_by instrs.length - i
  decreasing_by
    have : i < instrs.length := by
      by_contra hle
      rw [List.getElem?_eq_none (by omega)] at hi
      exact Option.noConfusion hi
    omega

/-- The forward scan returns the first instruction of this program. -/
theorem scanForLimo_first (instrs : List Instruction) (i : Nat) (j : Nat)
    (ixj : Instruction) (hij : i ≤ j) (hj : instrs[j]? = some ixj)
    (hlimo : ixj.program_id = LIMO_PROGRAM_ID)
    (hbetween : ∀ k kx, i ≤ k → k < j → instrs[k]? = some kx →
      kx.program_id ≠ LIMO_PROGRAM_ID) :
    scanForLimo instrs i = some (j, ixj) := by
  rcases Nat.lt_or_ge i j with hlt | hge
  · cases hi : instrs[i]? with
    | none =>
      exfalso
      have hjlen : j < instrs.length := by
        by_contra hle
        rw [List.getElem?_eq_none (by omega)] at hj
        exact Option.noConfusion hj
      rw [List.getElem?_eq_getElem (by omega)] at hi
      exact Option.noConfusion hi
    | some ix =>
      rw [scanForLimo_step hi,
        if_neg (hbetween i ix (Nat.le_refl i) hlt hi)]
      exact scanForLimo_first instrs (i + 1) j ixj (by omega) hj hlimo
        fun k kx hk hk2 hkx => hbetween k kx (by omega) hk2 hkx
  · have : i = j := by omega
    subst this
    rw [scanForLimo_step hj, if_pos hlimo]
  termination_by j - i

/-- The tail loop accepts when everything from index `m` on is
allow-listed. -/
theorem checkAllowedToEnd_ok (instrs : List Instruction) (m : Nat)
    (h : ∀ j ix, m ≤ j → instrs[j]? = some ix →
      program_id_allowed ix.program_id = true) :
    checkAllowedToEnd instrs m = .ok () := by
  cases hm : instrs[m]? with
  | none =>
    unfold checkAllowedToEnd
    rw [List.drop_eq_nil_of_le]
    · rfl
    · by_contra hlt
      rw [List.getElem?_eq_getElem (by omega)] at hm
      exact Option.noConfusion hm
  | some ix =>
    have hmlen : m < instrs.length := by
      by_contra hle
      rw [List.getElem?_eq_none (by omega)] at hm
      exact Option.noConfusion hm
    have hget : instrs[m] = ix := by
      rw [List.getElem?_eq_getElem hmlen] at hm
      exact Option.some.inj hm
    unfold checkAllowedToEnd
    rw [List.drop_eq_getElem_cons hmlen, hget]
    unfold checkAllowedListAux
    rw [if_pos (h m ix (Nat.le_refl m) hm)]
    exact checkAllowedToEnd_ok instrs (m + 1) fun j jx hj hjx =>
      h j jx (by omega) hjx
  termination_by instrs.length - m
  decreasing_by
    have : m < instrs.length := by
      by_contra hle
      rw [List.getElem?_eq_none (by omega)] at hm
      exact Option.noConfusion hm
    omega

/-- The tail loop rejects at its first non-allow-listed instruction. -/
theorem checkAllowedToEnd_err (instrs : List Instruction) :
    ∀ (m k : Nat) (ixk : Instruction), m ≤ k → instrs[k]? = some ixk →
      ¬ program_id_allowed ixk.program_id = true →
      (∀ j jx, m ≤ j → j < k → instrs[j]? = some jx →
        program_id_allowed jx.program_id = true) →
      checkAllowedToEnd instrs m = .error .FlashTxWithUnexpectedIxs := by
  intro m k ixk hmk hk hbad hbetween
  have hklen : k < instrs.length := by
    by_contra hle
    rw [List.getElem?_eq_none (by omega)] at hk
    exact Option.noConfusion hk
  have hmlen : m < instrs.length := by omega
  cases hm : instrs[m]? with
  | none =>
    exfalso
    rw [List.getElem?_eq_getElem hmlen] at hm
    exact Option.noConfusion hm
  | some ix =>
    have hget : instrs[m] = ix := by
      rw [List.getElem?_eq_getElem hmlen] at hm
      exact Option.some.inj hm
    unfold checkAllowedToEnd
    rw [List.drop_eq_getElem_cons hmlen, hget]
    unfold checkAllowedListAux
    rcases Nat.lt_or_ge m k with hlt | hge
    · rw [if_pos (hbetween m ix (Nat.le_refl m) hlt hm)]
      exact checkAllowedToEnd_err instrs (m + 1) k ixk (by omega) hk hbad
        fun j jx hj hj2 hjx => hbetween j jx (by omega) hj2 hjx
    · have : m = k := by omega
      subst this
      rw [hm] at hk
      cases Option.some.inj hk
      rw [if_neg hbad]
  termination_by m _ => instrs.length - m
  decreasing_by omega

/-- The `start`-side backward-region loop (`0..current`) of
`search_first_ix` accepts when every instruction before the current one is
loadable and allow-listed, finding no counterpart. -/
theorem scanFirstLimoCheckedAux_none (instrs : List Instruction) :
    ∀ (k lo : Nat),
      (∀ i, i < k → ∃ ix, instrs[lo + i]? = some ix ∧
        program_id_allowed ix.program_id = true) →
      scanFirstLimoCheckedAux instrs lo k = .ok none
  | 0, lo, _ => rfl
  | k + 1, lo, h => by
    obtain ⟨ix, hix, hallow⟩ := h 0 (by omega)
    unfold scanFirstLimoCheckedAux loadInstructionAt
    rw [Nat.add_zero] at hix
    rw [hix]
    dsimp only
    rw [if_neg (by simpa using allowed_ne_limo hallow), if_pos hallow]
    exact scanFirstLimoCheckedAux_none instrs k (lo + 1) fun i hi => by
      rw [show lo + 1 + i = lo + (i + 1) from by omega]
      exact h (i + 1) (by omega)

/-- The `start`-side loop returns the first (earliest) this-program
instruction, with everything before it allow-listed; nothing after the
match is examined. -/
theorem scanFirstLimoCheckedAux_first (instrs : List Instruction) :
    ∀ (f k lo : Nat) (ixf : Instruction), f < k →
      (∀ i, i < f → ∃ ix, instrs[lo + i]? = some ix ∧
        program_id_allowed ix.program_id = true) →
      instrs[lo + f]? = some ixf →
      ixf.program_id = LIMO_PROGRAM_ID →
      scanFirstLimoCheckedAux instrs lo k = .ok (some ixf)
  | 0, k, lo, ixf, hk, _, hf, hlimo => by
    obtain ⟨k', rfl⟩ : ∃ k', k = k' + 1 := ⟨k - 1, by omega⟩
    unfold scanFirstLimoCheckedAux loadInstructionAt
    rw [Nat.add_zero] at hf
    rw [hf]
    dsimp only
    rw [if_pos hlimo]
  | f + 1, k, lo, ixf, hk, hpre, hf, hlimo => by
    obtain ⟨k', rfl⟩ : ∃ k', k = k' + 1 := ⟨k - 1, by omega⟩
    obtain ⟨ix, hix, hallow⟩ := hpre 0 (by omega)
    unfold scanFirstLimoCheckedAux loadInstructionAt
    rw [Nat.add_zero] at hix
    rw [hix]
    dsimp only
    rw [if_neg (by simpa using allowed_ne_limo hallow), if_pos hallow]
    refine scanFirstLimoCheckedAux_first instrs f k' (lo + 1) ixf (by omega)
      (fun i hi => ?_) ?_ hlimo
    · rw [show lo + 1 + i = lo + (i + 1) from by omega]
      exact hpre (i + 1) (by omega)
    · rw [show lo + 1 + f = lo + (f + 1) from by omega]
      exact hf

/-- The `start`-side loop rejects at a non-allow-listed foreign
instruction reached before any this-program instruction. -/
theorem scanFirstLimoCheckedAux_err (instrs : List Instruction) :
    ∀ (f k lo : Nat) (ixf : Instruction), f < k →
      (∀ i, i < f → ∃ ix, instrs[lo + i]? = some ix ∧
        program_id_allowed ix.program_id = true) →
      instrs[lo + f]? = some ixf →
      ixf.program_id ≠ LIMO_PROGRAM_ID →
      ¬ program_id_allowed ixf.program_id = true →
      scanFirstLimoCheckedAux instrs lo k =
        .error .FlashTxWithUnexpectedIxs
  | 0, k, lo, ixf, hk, _, hf, hnl, hbad => by
    obtain ⟨k', rfl⟩ : ∃ k', k = k' + 1 := ⟨k - 1, by omega⟩
    unfold scanFirstLimoCheckedAux loadInstructionAt
    rw [Nat.add_zero] at hf
    rw [hf]
    dsimp only
    rw [if_neg (by simpa using hnl), if_neg hbad]
  | f + 1, k, lo, ixf, hk, hpre, hf, hnl, hbad => by
    obtain ⟨k', rfl⟩ : ∃ k', k = k' + 1 := ⟨k - 1, by omega⟩
    obtain ⟨ix, hix, hallow⟩ := hpre 0 (by omega)
    unfold scanFirstLimoCheckedAux loadInstructionAt
    rw [Nat.add_zero] at hix
    rw [hix]
    dsimp only
    rw [if_neg (by simpa using allowed_ne_limo hallow), if_pos hallow]
    refine scanFirstLimoCheckedAux_err instrs f k' (lo + 1) ixf (by omega)
      (fun i hi => ?_) ?_ hnl hbad
    · rw [show lo + 1 + i = lo + (i + 1) from by omega]
      exact hpre (i + 1) (by omega)
    · rw [show lo + 1 + f = lo + (f + 1) from by omega]
      exact hf

/-! ## Behaviour of the two search routines -/

/-- `search_second_ix` finds the first this-program instruction after the
current index when the prefix is allow-listed and the tail after the match
is allow-listed; the instructions strictly between the current index and
the match are not inspected beyond not being from this program. -/
theorem search_second_ix_ok (instrs : List Instruction) (cur j : Nat)
    (endIx : Instruction)
    (hpre : ∀ i, i < cur → ∃ ix, instrs[i]? = some ix ∧
      program_id_allowed ix.program_id = true)
    (hj : instrs[j]? = some endIx)
    (hlimo : endIx.program_id = LIMO_PROGRAM_ID) (hgt : cur < j)
    (hbetween : ∀ k kx, cur + 1 ≤ k → k < j → instrs[k]? = some kx →
      kx.program_id ≠ LIMO_PROGRAM_ID)
    (hsuffix : ∀ k kx, j + 1 ≤ k → instrs[k]? = some kx →
      program_id_allowed kx.program_id = true) :
    search_second_ix instrs cur = .ok endIx := by
  unfold search_second_ix checkAllowedRange
  rw [Nat.sub_zero]
  rw [checkAllowedRangeAux_ok instrs cur 0 (fun i hi => by
    rw [Nat.zero_add]
    exact hpre i hi)]
  dsimp only
  rw [scanForLimo_first instrs (cur + 1) j endIx (by omega) hj hlimo
    hbetween]
  dsimp only
  rw [checkAllowedToEnd_ok instrs (j + 1) (fun k kx hk hkx =>
    hsuffix k kx hk hkx)]

/-- `search_second_ix` reports `FlashIxsNotEnded` when no this-program
instruction follows the current one. -/
theorem search_second_ix_notEnded (instrs : List Instruction) (cur : Nat)
    (hpre : ∀ i, i < cur → ∃ ix, instrs[i]? = some ix ∧
      program_id_allowed ix.program_id = true)
    (hafter : ∀ j jx, cur + 1 ≤ j → instrs[j]? = some jx →
      jx.program_id ≠ LIMO_PROGRAM_ID) :
    search_second_ix instrs cur = .error .FlashIxsNotEnded := by
  unfold search_second_ix checkAllowedRange
  rw [Nat.sub_zero]
  rw [checkAllowedRangeAux_ok instrs cur 0 (fun i hi => by
    rw [Nat.zero_add]
    exact hpre i hi)]
  dsimp only
  rw [scanForLimo_none instrs (cur + 1) hafter]

/-- `search_second_ix` reports `FlashTxWithUnexpectedIxs` at a
non-allow-listed instruction before the current index. -/
theorem search_second_ix_prefix_err (instrs : List Instruction)
    (cur f : Nat) (hf : f < cur)
    (hpre : ∀ i, i < f → ∃ ix, instrs[i]? = some ix ∧
      program_id_allowed ix.program_id = true)
    (hbad : ∃ ixf, instrs[f]? = some ixf ∧
      ¬ program_id_allowed ixf.program_id = true) :
    search_second_ix instrs cur = .error .FlashTxWithUnexpectedIxs := by
  unfold search_second_ix checkAllowedRange
  rw [Nat.sub_zero]
  rw [checkAllowedRangeAux_err instrs f cur 0 hf (fun i hi => by
    rw [Nat.zero_add]
    exact hpre i hi) (by
      rw [Nat.zero_add]
      exact hbad)]

/-- `search_second_ix` reports `FlashTxWithUnexpectedIxs` at a
non-allow-listed instruction after the matched end. -/
theorem search_second_ix_suffix_err (instrs : List Instruction)
    (cur j k : Nat) (endIx ixk : Instruction)
    (hpre : ∀ i, i < cur → ∃ ix, instrs[i]? = some ix ∧
      program_id_allowed ix.program_id = true)
    (hj : instrs[j]? = some endIx)
    (hlimo : endIx.program_id = LIMO_PROGRAM_ID) (hgt : cur < j)
    (hbetween : ∀ m mx, cur + 1 ≤ m → m < j → instrs[m]? = some mx →
      mx.program_id ≠ LIMO_PROGRAM_ID)
    (hk : instrs[k]? = some ixk) (hjk : j + 1 ≤ k)
    (hbad : ¬ program_id_allowed ixk.program_id = true)
    (hmid : ∀ m mx, j + 1 ≤ m → m < k → instrs[m]? = some mx →
      program_id_allowed mx.program_id = true) :
    search_second_ix instrs cur = .error .FlashTxWithUnexpectedIxs := by
  unfold search_second_ix checkAllowedRange
  rw [Nat.sub_zero]
  rw [checkAllowedRangeAux_ok instrs cur 0 (fun i hi => by
    rw [Nat.zero_add]
    exact hpre i hi)]
  dsimp only
  rw [scanForLimo_first instrs (cur + 1) j endIx (by omega) hj hlimo
    hbetween]
  dsimp only
  rw [checkAllowedToEnd_err instrs (j + 1) k ixk hjk hk hbad hmid]

/-- `search_first_ix` selects the earliest this-program instruction of the
transaction (scanning forward from index 0), requiring everything before
it, and everything after the current index, to be allow-listed; nothing
between the match and the current index is inspected. -/
theorem search_first_ix_ok (instrs : List Instruction) (cur j : Nat)
    (startIx : Instruction)
    (hsuffix : ∀ k kx, cur + 1 ≤ k → instrs[k]? = some kx →
      program_id_allowed kx.program_id = true)
    (hj : instrs[j]? = some startIx)
    (hlimo : startIx.program_id = LIMO_PROGRAM_ID) (hlt : j < cur)
    (hpre : ∀ i, i < j → ∃ ix, instrs[i]? = some ix ∧
      program_id_allowed ix.program_id = true) :
    search_first_ix instrs cur = .ok startIx := by
  unfold search_first_ix
  rw [checkAllowedToEnd_ok instrs (cur + 1) hsuffix]
  dsimp only
  unfold scanFirstLimoChecked
  rw [scanFirstLimoCheckedAux_first instrs j (cur - 0) 0 startIx
    (by omega) (fun i hi => by
      rw [Nat.zero_add]
      exact hpre i hi) (by
      rw [Nat.zero_add]
      exact hj) hlimo]

/-- `search_first_ix` reports `FlashIxsNotStarted` when no this-program
instruction precedes the current index. -/
theorem search_first_ix_notStarted (instrs : List Instruction) (cur : Nat)
    (hsuffix : ∀ k kx, cur + 1 ≤ k → instrs[k]? = some kx →
      program_id_allowed kx.program_id = true)
    (hpre : ∀ i, i < cur → ∃ ix, instrs[i]? = some ix ∧
      program_id_allowed ix.program_id = true) :
    search_first_ix instrs cur = .error .FlashIxsNotStarted := by
  unfold search_first_ix
  rw [checkAllowedToEnd_ok instrs (cur + 1) hsuffix]
  dsimp only
  unfold scanFirstLimoChecked
  rw [scanFirstLimoCheckedAux_none instrs (cur - 0) 0 (fun i hi => by
    rw [Nat.zero_add]
    exact hpre i hi)]

/-- `search_first_ix` reports `FlashTxWithUnexpectedIxs` at a
non-allow-listed instruction after the current index. -/
theorem search_first_ix_suffix_err (instrs : List Instruction)
    (cur k : Nat) (ixk : Instruction) (hk : instrs[k]? = some ixk)
    (hck : cur + 1 ≤ k)
    (hbad : ¬ program_id_allowed ixk.program_id = true)
    (hmid : ∀ m mx, cur + 1 ≤ m → m < k → instrs[m]? = some mx →
      program_id_allowed mx.program_id = true) :
    search_first_ix instrs cur = .error .FlashTxWithUnexpectedIxs := by
  unfold search_first_ix
  rw [checkAllowedToEnd_err instrs (cur + 1) k ixk hck hk hbad hmid]

/-- `search_first_ix` reports `FlashTxWithUnexpectedIxs` at a foreign
(non-allow-listed, non-this-program) instruction reached before the first
this-program instruction. -/
theorem search_first_ix_prefix_err (instrs : List Instruction)
    (cur f : Nat) (ixf : Instruction)
    (hsuffix : ∀ k kx, cur + 1 ≤ k → instrs[k]? = some kx →
      program_id_allowed kx.program_id = true)
    (hf : f < cur) (hfx : instrs[f]? = some ixf)
    (hnl : ixf.program_id ≠ LIMO_PROGRAM_ID)
    (hbad : ¬ program_id_allowed ixf.program_id = true)
    (hpre : ∀ i, i < f → ∃ ix, instrs[i]? = some ix ∧
      program_id_allowed ix.program_id = true) :
    search_first_ix instrs cur = .error .FlashTxWithUnexpectedIxs := by
  unfold search_first_ix
  rw [checkAllowedToEnd_ok instrs (cur + 1) hsuffix]
  dsimp only
  unfold scanFirstLimoChecked
  rw [scanFirstLimoCheckedAux_err instrs f (cur - 0) 0 ixf (by omega)
    (fun i hi => by
      rw [Nat.zero_add]
      exact hpre i hi) (by
      rw [Nat.zero_add]
      exact hfx) hnl hbad]

/-! ## Behaviour of the pairing check and the handler pipelines -/

theorem zip_self_any_ne (l : List Nat) :
    (l.zip l).any (fun p => p.1 ≠ p.2) = false := by
  induction l with
  | nil => rfl
  | cons a t ih => simpa using ih

theorem zip_any_ne_of_ne :
    ∀ (l1 l2 : List Nat), l1.length = l2.length → l1 ≠ l2 →
      (l1.zip l2).any (fun p => p.1 ≠ p.2) = true
  | [], [], _, hne => absurd rfl hne
  | [], _ :: _, hlen, _ => by simp at hlen
  | _ :: _, [], hlen, _ => by simp at hlen
  | a :: t1, b :: t2, hlen, hne => by
    by_cases hab : a = b
    · subst hab
      have ht : t1 ≠ t2 := fun h => hne (by rw [h])
      have hrec := zip_any_ne_of_ne t1 t2 (by simpa using hlen) ht
      rw [List.zip_cons_cons, List.any_cons, hrec, Bool.or_true]
    · simp [hab]

/-- A search failure propagates through the pairing check. -/
theorem ensure_ix_match_search_err {α : Type} {disc : List Nat}
    {decode : List Nat → Option α}
    {search : List Instruction → Nat → Except LimoError Instruction}
    {instrs : List Instruction} {cur : Nat} {e : LimoError}
    (h : search instrs cur = .error e) :
    ensure_ix_match disc decode search instrs cur = .error e := by
  unfold ensure_ix_match
  rw [h]

/-- The pairing check succeeds on a found counterpart with the right
discriminator, identical accounts and a decodable payload. -/
theorem ensure_ix_match_ok {α : Type} {disc : List Nat}
    {decode : List Nat → Option α}
    {search : List Instruction → Nat → Except LimoError Instruction}
    {instrs : List Instruction} {cur : Nat} {other curIx : Instruction}
    {a : α}
    (hs : search instrs cur = .ok other)
    (hlen : ¬ other.data.length < 8)
    (hdisc : other.data.take 8 = disc)
    (hcur : loadInstructionAt instrs cur = .ok curIx)
    (hacc : other.accounts = curIx.accounts)
    (hdec : decode (other.data.drop 8) = some a) :
    ensure_ix_match disc decode search instrs cur = .ok a := by
  unfold ensure_ix_match
  rw [hs]
  dsimp only
  rw [if_neg hlen, if_neg (by simp [hdisc]), hcur]
  dsimp only
  rw [if_neg (by simp [hacc]), if_neg (by
    rw [hacc, zip_self_any_ne]
    simp), hdec]

/-- The pairing check reports `FlashIxsAccountMismatch` when the account
lists differ (in length or at any position). -/
theorem ensure_ix_match_account_mismatch {α : Type} {disc : List Nat}
    {decode : List Nat → Option α}
    {search : List Instruction → Nat → Except LimoError Instruction}
    {instrs : List Instruction} {cur : Nat} {other curIx : Instruction}
    (hs : search instrs cur = .ok other)
    (hlen : ¬ other.data.length < 8)
    (hdisc : other.data.take 8 = disc)
    (hcur : loadInstructionAt instrs cur = .ok curIx)
    (hacc : other.accounts ≠ curIx.accounts) :
    ensure_ix_match disc decode search instrs cur =
      .error .FlashIxsAccountMismatch := by
  unfold ensure_ix_match
  rw [hs]
  dsimp only
  rw [if_neg hlen, if_neg (by simp [hdisc]), hcur]
  dsimp only
  by_cases hl : other.accounts.length = curIx.accounts.length
  · rw [if_neg (by omega), if_pos (zip_any_ne_of_ne curIx.accounts
      other.accounts (by omega) (fun h => hacc h.symm))]
  · rw [if_pos (by omega)]

/-- The pairing check reports `FlashTxWithUnexpectedIxs` when the found
counterpart does not carry the expected 8-byte discriminator. -/
theorem ensure_ix_match_wrong_disc {α : Type} {disc : List Nat}
    {decode : List Nat → Option α}
    {search : List Instruction → Nat → Except LimoError Instruction}
    {instrs : List Instruction} {cur : Nat} {other : Instruction}
    (hs : search instrs cur = .ok other)
    (hbad : other.data.length < 8 ∨
      (¬ other.data.length < 8 ∧ other.data.take 8 ≠ disc)) :
    ensure_ix_match disc decode search instrs cur =
      .error .FlashTxWithUnexpectedIxs := by
  unfold ensure_ix_match
  rw [hs]
  dsimp only
  rcases hbad with hshort | ⟨hlong, hne⟩
  · rw [if_pos hshort]
  · rw [if_neg hlong, if_pos hne]

/-- The CPI guard passes exactly when the sysvar-reported current
instruction is this program's and the stack height is at transaction
level. -/
theorem handler_cpi_checks_ok {instrs : List Instruction}
    {cur stack : Nat} {curIx : Instruction}
    (hcur : loadInstructionAt instrs cur = .ok curIx)
    (hlimo : curIx.program_id = LIMO_PROGRAM_ID) (hstack : stack ≤ 1) :
    handler_cpi_checks instrs cur stack = .ok () := by
  unfold handler_cpi_checks TRANSACTION_LEVEL_STACK_HEIGHT
  rw [hcur]
  dsimp only
  rw [if_neg (by simp [hlimo]), if_neg (by omega)]

/-- The CPI guard fails with `CPINotAllowed` on a foreign current
instruction or an above-transaction-level stack height. -/
theorem handler_cpi_checks_err {instrs : List Instruction}
    {cur stack : Nat} {curIx : Instruction}
    (hcur : loadInstructionAt instrs cur = .ok curIx)
    (hbad : ¬ curIx.program_id = LIMO_PROGRAM_ID ∨ 1 < stack) :
    handler_cpi_checks instrs cur stack = .error .CPINotAllowed := by
  unfold handler_cpi_checks TRANSACTION_LEVEL_STACK_HEIGHT
  rw [hcur]
  dsimp only
  rcases hbad with hforeign | hstack
  · rw [if_pos hforeign]
  · by_cases hforeign : curIx.program_id = LIMO_PROGRAM_ID
    · rw [if_neg (by simp [hforeign]), if_pos (by omega)]
    · rw [if_pos hforeign]

/-! ## Claim C6: the flash protocol error paths -/

/-- C6: over the transaction's instruction list with a current index:
a start with no this-program instruction after it fails with
`FlashIxsNotEnded`; an end with no this-program instruction before it
fails with `FlashIxsNotStarted`; a paired counterpart whose account list
differs in length or at any position fails with
`FlashIxsAccountMismatch`; a paired counterpart whose decoded payload
differs in `input_amount`, `min_output_amount` or
`tip_amount_permissionless_taking` fails with `FlashIxsArgsMismatch`;
and a call-stack height above the transaction level, or a
sysvar-reported current program id other than this program's, fails with
`CPINotAllowed` in both handlers. -/
theorem C6_flash_protocol_error_paths :
    (∀ (instrs : List Instruction) (cur stack : Nat) (curIx : Instruction)
        (args : FlashTakeOrderArgs),
      loadInstructionAt instrs cur = .ok curIx →
      curIx.program_id = LIMO_PROGRAM_ID → stack ≤ 1 →
      (∀ i, i < cur → ∃ ix, instrs[i]? = some ix ∧
        program_id_allowed ix.program_id = true) →
      (∀ j jx, cur + 1 ≤ j → instrs[j]? = some jx →
        jx.program_id ≠ LIMO_PROGRAM_ID) →
      handler_start_introspection instrs cur stack args =
        .error .FlashIxsNotEnded) ∧
    (∀ (instrs : List Instruction) (cur stack : Nat) (curIx : Instruction)
        (args : FlashTakeOrderArgs),
      loadInstructionAt instrs cur = .ok curIx →
      curIx.program_id = LIMO_PROGRAM_ID → stack ≤ 1 →
      (∀ k kx, cur + 1 ≤ k → instrs[k]? = some kx →
        program_id_allowed kx.program_id = true) →
      (∀ i, i < cur → ∃ ix, instrs[i]? = some ix ∧
        program_id_allowed ix.program_id = true) →
      handler_end_introspection instrs cur stack args =
        .error .FlashIxsNotStarted) ∧
    (∀ (instrs : List Instruction) (cur stack : Nat)
        (curIx endIx : Instruction) (args : FlashTakeOrderArgs),
      loadInstructionAt instrs cur = .ok curIx →
      curIx.program_id = LIMO_PROGRAM_ID → stack ≤ 1 →
      search_second_ix instrs cur = .ok endIx →
      ¬ endIx.data.length < 8 →
      endIx.data.take 8 = flashTakeOrderEndDisc →
      endIx.accounts ≠ curIx.accounts →
      handler_start_introspection instrs cur stack args =
        .error .FlashIxsAccountMismatch) ∧
    (∀ (instrs : List Instruction) (cur stack : Nat)
        (curIx endIx : Instruction) (args pay : FlashTakeOrderArgs),
      loadInstructionAt instrs cur = .ok curIx →
      curIx.program_id = LIMO_PROGRAM_ID → stack ≤ 1 →
      search_second_ix instrs cur = .ok endIx →
      ¬ endIx.data.length < 8 →
      endIx.data.take 8 = flashTakeOrderEndDisc →
      endIx.accounts = curIx.accounts →
      decodeFlashArgs (endIx.data.drop 8) = some pay →
      (¬ args.input_amount = pay.input_amount ∨
        ¬ args.min_output_amount = pay.min_output_amount ∨
        ¬ args.tip_amount_permissionless_taking =
          pay.tip_amount_permissionless_taking) →
      handler_start_introspection instrs cur stack args =
        .error .FlashIxsArgsMismatch) ∧
    (∀ (instrs : List Instruction) (cur stack : Nat) (curIx : Instruction)
        (args : FlashTakeOrderArgs),
      loadInstructionAt instrs cur = .ok curIx →
      (¬ curIx.program_id = LIMO_PROGRAM_ID ∨ 1 < stack) →
      handler_start_introspection instrs cur stack args =
          .error .CPINotAllowed ∧
        handler_end_introspection instrs cur stack args =
          .error .CPINotAllowed) := by
  refine ⟨?_, ?_, ?_, ?_, ?_⟩
  · intro instrs cur stack curIx args hload hlimo hstack hpre hafter
    unfold handler_start_introspection
    rw [handler_cpi_checks_ok hload hlimo hstack]
    dsimp only
    unfold ensure_second_ix_match
    rw [ensure_ix_match_search_err
      (search_second_ix_notEnded instrs cur hpre hafter)]
  · intro instrs cur stack curIx args hload hlimo hstack hsuf hpre
    unfold handler_end_introspection
    rw [handler_cpi_checks_ok hload hlimo hstack]
    dsimp only
    unfold ensure_first_ix_match
    rw [ensure_ix_match_search_err
      (search_first_ix_notStarted instrs cur hsuf hpre)]
  · intro instrs cur stack curIx endIx args hload hlimo hstack hsearch
      hlen hdisc hacc
    unfold handler_start_introspection
    rw [handler_cpi_checks_ok hload hlimo hstack]
    dsimp only
    unfold ensure_second_ix_match
    rw [ensure_ix_match_account_mismatch hsearch hlen hdisc hload hacc]
  · intro instrs cur stack curIx endIx args pay hload hlimo hstack hsearch
      hlen hdisc hacc hdec hne
    unfold handler_start_introspection
    rw [handler_cpi_checks_ok hload hlimo hstack]
    dsimp only
    unfold ensure_second_ix_match
    rw [ensure_ix_match_ok hsearch hlen hdisc hload hacc hdec]
    dsimp only
    unfold flash_args_match
    by_cases e1 : args.input_amount = pay.input_amount
    · rw [if_neg (by simpa using e1)]
      by_cases e2 : args.min_output_amount = pay.min_output_amount
      · rw [if_neg (by simpa using e2)]
        have e3 : ¬ args.tip_amount_permissionless_taking =
            pay.tip_amount_permissionless_taking := by tauto
        rw [if_pos e3]
      · rw [if_pos e2]
    · rw [if_pos e1]
  · intro instrs cur stack curIx args hload hbad
    constructor
    · unfold handler_start_introspection
      rw [handler_cpi_checks_err hload hbad]
    · unfold handler_end_introspection
      rw [handler_cpi_checks_err hload hbad]

/-- The argument payload of the worked flash scenarios. -/
def flashArgsEx : FlashTakeOrderArgs :=
  { input_amount := 500, min_output_amount := 1000,
    tip_amount_permissionless_taking := 7 }

/-- A concrete `flash_take_order_start` instruction (accounts `[10]`). -/
def startIxEx : Instruction :=
  { program_id := LIMO_PROGRAM_ID, accounts := [10],
    data := flashTakeOrderStartDisc ++ encodeFlashArgs flashArgsEx }

/-- A concrete `flash_take_order_end` instruction paired with
`startIxEx`. -/
def endIxEx : Instruction :=
  { program_id := LIMO_PROGRAM_ID, accounts := [10],
    data := flashTakeOrderEndDisc ++ encodeFlashArgs flashArgsEx }

/-- C6 witness: a transaction holding only the start instruction fails
with `FlashIxsNotEnded`. -/
theorem C6_witness :
    handler_start_introspection [startIxEx] 0 1 flashArgsEx =
      .error .FlashIxsNotEnded :=
  C6_flash_protocol_error_paths.1 [startIxEx] 0 1 startIxEx flashArgsEx
    (by decide) (by decide) (by decide)
    (fun i hi => absurd hi (by omega))
    (fun j jx hj hjx => by
      rw [List.getElem?_eq_none (by simpa using hj)] at hjx
      exact Option.noConfusion hjx)

/-! ## Claim C8: which start the end handler pairs with -/

/-- A concrete start instruction with a longer account list `[10, 11]`. -/
def startIxWideEx : Instruction :=
  { program_id := LIMO_PROGRAM_ID, accounts := [10, 11],
    data := flashTakeOrderStartDisc ++ encodeFlashArgs flashArgsEx }

/-- C8 counterexample: in `[startIxWideEx, startIxEx, endIxEx]` with the
end executing at index 2, the nearest preceding this-program instruction
(index 1) is a start with accounts and arguments identical to the end's —
the claim predicts success — yet the verifier pairs with the earliest
this-program instruction (index 0, different account list) and fails with
`FlashIxsAccountMismatch`; the nearest pair alone does verify. -/
theorem C8_counterexample :
    [startIxWideEx, startIxEx, endIxEx][1]? = some startIxEx ∧
      startIxEx.program_id = LIMO_PROGRAM_ID ∧
      startIxEx.accounts = endIxEx.accounts ∧
      startIxEx.data.take 8 = flashTakeOrderStartDisc ∧
      decodeFlashArgs (startIxEx.data.drop 8) = some flashArgsEx ∧
      ensure_first_ix_match [startIxEx, endIxEx] 1 = .ok flashArgsEx ∧
      handler_end_introspection [startIxWideEx, startIxEx, endIxEx] 2 1
        flashArgsEx = .error .FlashIxsAccountMismatch := by decide

/-- C8 amended: the end handler's verifier scans forward from index 0 and
selects the EARLIEST instruction of this program before the current
index — not the nearest scanning backward; everything before that
selected instruction must be allow-listed, nothing between it and the
current index is inspected, and it must carry the start discriminator,
identical accounts and matching arguments for the verification to
succeed; when no this-program instruction precedes the current index the
handler fails with `FlashIxsNotStarted`. -/
theorem C8_amended_end_pairs_with_earliest :
    (∀ (instrs : List Instruction) (cur j : Nat) (startIx : Instruction),
      (∀ k kx, cur + 1 ≤ k → instrs[k]? = some kx →
        program_id_allowed kx.program_id = true) →
      instrs[j]? = some startIx →
      startIx.program_id = LIMO_PROGRAM_ID → j < cur →
      (∀ i, i < j → ∃ ix, instrs[i]? = some ix ∧
        program_id_allowed ix.program_id = true) →
      search_first_ix instrs cur = .ok startIx) ∧
    (∀ (instrs : List Instruction) (cur stack j : Nat)
        (curIx startIx : Instruction) (args : FlashTakeOrderArgs),
      loadInstructionAt instrs cur = .ok curIx →
      curIx.program_id = LIMO_PROGRAM_ID → stack ≤ 1 →
      (∀ k kx, cur + 1 ≤ k → instrs[k]? = some kx →
        program_id_allowed kx.program_id = true) →
      instrs[j]? = some startIx →
      startIx.program_id = LIMO_PROGRAM_ID → j < cur →
      (∀ i, i < j → ∃ ix, instrs[i]? = some ix ∧
        program_id_allowed ix.program_id = true) →
      ¬ startIx.data.length < 8 →
      startIx.data.take 8 = flashTakeOrderStartDisc →
      startIx.accounts = curIx.accounts →
      decodeFlashArgs (startIx.data.drop 8) = some args →
      handler_end_introspection instrs cur stack args = .ok args) ∧
    (∀ (instrs : List Instruction) (cur : Nat),
      (∀ k kx, cur + 1 ≤ k → instrs[k]? = some kx →
        program_id_allowed kx.program_id = true) →
      (∀ i, i < cur → ∃ ix, instrs[i]? = some ix ∧
        program_id_allowed ix.program_id = true) →
      search_first_ix instrs cur = .error .FlashIxsNotStarted) := by
  refine ⟨?_, ?_, ?_⟩
  · intro instrs cur j startIx hsuf hj hlimo hlt hpre
    exact search_first_ix_ok instrs cur j startIx hsuf hj hlimo hlt hpre
  · intro instrs cur stack j curIx startIx args hload hclimo hstack hsuf
      hj hlimo hlt hpre hdlen hdisc hacc hdec
    unfold handler_end_introspection
    rw [handler_cpi_checks_ok hload hclimo hstack]
    dsimp only
    unfold ensure_first_ix_match
    rw [ensure_ix_match_ok
      (search_first_ix_ok instrs cur j startIx hsuf hj hlimo hlt hpre)
      hdlen hdisc hload hacc hdec]
    dsimp only
    unfold flash_args_match
    rw [if_neg (by simp), if_neg (by simp), if_neg (by simp)]
  · intro instrs cur hsuf hpre
    exact search_first_ix_notStarted instrs cur hsuf hpre

/-- C8 witness: the two-instruction bracket `[startIxEx, endIxEx]` with
the end at index 1 verifies successfully end-to-end. -/
theorem C8_witness :
    handler_end_introspection [startIxEx, endIxEx] 1 1 flashArgsEx =
      .ok flashArgsEx :=
  C8_amended_end_pairs_with_earliest.2.1 [startIxEx, endIxEx] 1 1 0
    endIxEx startIxEx flashArgsEx (by decide) (by decide) (by decide)
    (fun k kx hk hkx => by
      rw [List.getElem?_eq_none (by simpa using hk)] at hkx
      exact Option.noConfusion hkx)
    (by decide) (by decide) (by decide)
    (fun i hi => absurd hi (by omega))
    (by decide) (by decide) (by decide) (by decide)

/-! ## Claim C10: the allow-list constrains the whole transaction except
the bracket interior -/

/-- C10: the flash verifiers restrict the whole transaction, not just the
span between start and end.  Start side (`search_second_ix`, current =
the start): any non-allow-listed instruction before the current index, or
after the matched end, fails with `FlashTxWithUnexpectedIxs`; instructions
strictly between the start and the matched end are not checked against
the allow-list (only required not to belong to this program), and the
verification succeeds over them.  End side (`search_first_ix`, current =
the end): any non-allow-listed instruction after the current index, or
any foreign instruction before the matched (earliest) start, fails with
`FlashTxWithUnexpectedIxs`; instructions strictly between the matched
start and the end are not inspected at all. -/
theorem C10_allow_list_outside_bracket :
    (∀ (instrs : List Instruction) (cur : Nat),
      (∀ i, i < cur → ∃ ix, instrs[i]? = some ix) →
      (∃ f ixf, f < cur ∧ instrs[f]? = some ixf ∧
        ¬ program_id_allowed ixf.program_id = true) →
      search_second_ix instrs cur = .error .FlashTxWithUnexpectedIxs) ∧
    (∀ (instrs : List Instruction) (cur j : Nat) (endIx : Instruction),
      (∀ i, i < cur → ∃ ix, instrs[i]? = some ix ∧
        program_id_allowed ix.program_id = true) →
      instrs[j]? = some endIx →
      endIx.program_id = LIMO_PROGRAM_ID → cur < j →
      (∀ m mx, cur + 1 ≤ m → m < j → instrs[m]? = some mx →
        mx.program_id ≠ LIMO_PROGRAM_ID) →
      (∃ k ixk, j + 1 ≤ k ∧ instrs[k]? = some ixk ∧
        ¬ program_id_allowed ixk.program_id = true) →
      search_second_ix instrs cur = .error .FlashTxWithUnexpectedIxs) ∧
    (∀ (instrs : List Instruction) (cur j : Nat) (endIx : Instruction),
      (∀ i, i < cur → ∃ ix, instrs[i]? = some ix ∧
        program_id_allowed ix.program_id = true) →
      instrs[j]? = some endIx →
      endIx.program_id = LIMO_PROGRAM_ID → cur < j →
      (∀ m mx, cur + 1 ≤ m → m < j → instrs[m]? = some mx →
        mx.program_id ≠ LIMO_PROGRAM_ID) →
      (∀ k kx, j + 1 ≤ k → instrs[k]? = some kx →
        program_id_allowed kx.program_id = true) →
      search_second_ix instrs cur = .ok endIx) ∧
    (∀ (instrs : List Instruction) (cur : Nat),
      (∃ k ixk, cur + 1 ≤ k ∧ instrs[k]? = some ixk ∧
        ¬ program_id_allowed ixk.program_id = true) →
      search_first_ix instrs cur = .error .FlashTxWithUnexpectedIxs) ∧
    (∀ (instrs : List Instruction) (cur j : Nat),
      (∀ k kx, cur + 1 ≤ k → instrs[k]? = some kx →
        program_id_allowed kx.program_id = true) →
      j ≤ cur →
      (∀ i, i < j → ∃ ix, instrs[i]? = some ix) →
      (∀ i ixi, i < j → instrs[i]? = some ixi →
        ixi.program_id ≠ LIMO_PROGRAM_ID) →
      (∃ f ixf, f < j ∧ instrs[f]? = some ixf ∧
        ¬ program_id_allowed ixf.program_id = true) →
      search_first_ix instrs cur = .error .FlashTxWithUnexpectedIxs) ∧
    (∀ (instrs : List Instruction) (cur j : Nat) (startIx : Instruction),
      (∀ k kx, cur + 1 ≤ k → instrs[k]? = some kx →
        program_id_allowed kx.program_id = true) →
      instrs[j]? = some startIx →
      startIx.program_id = LIMO_PROGRAM_ID → j < cur →
      (∀ i, i < j → ∃ ix, instrs[i]? = some ix ∧
        program_id_allowed ix.program_id = true) →
      search_first_ix instrs cur = .ok startIx) := by
  refine ⟨?_, ?_, ?_, ?_, ?_, ?_⟩
  · intro instrs cur hload hex
    classical
    obtain ⟨f, ixf, hf, hfx, hbad⟩ := hex
    have hex2 : ∃ n, n < cur ∧ ∃ ix, instrs[n]? = some ix ∧
        ¬ program_id_allowed ix.program_id = true := ⟨f, hf, ixf, hfx, hbad⟩
    obtain ⟨hf0, ix0, hix0, hbad0⟩ := Nat.find_spec hex2
    refine search_second_ix_prefix_err instrs cur (Nat.find hex2) hf0
      (fun i hi => ?_) ⟨ix0, hix0, hbad0⟩
    obtain ⟨ix, hix⟩ := hload i (by omega)
    refine ⟨ix, hix, ?_⟩
    by_contra hb
    exact Nat.find_min hex2 hi ⟨by omega, ix, hix, hb⟩
  · intro instrs cur j endIx hpre hj hlimo hgt hbetween hex
    classical
    obtain ⟨k, ixk, hk, hkx, hbad⟩ := hex
    have hex2 : ∃ n, j + 1 ≤ n ∧ ∃ ix, instrs[n]? = some ix ∧
        ¬ program_id_allowed ix.program_id = true := ⟨k, hk, ixk, hkx, hbad⟩
    obtain ⟨hk0, ix0, hix0, hbad0⟩ := Nat.find_spec hex2
    refine search_second_ix_suffix_err instrs cur j (Nat.find hex2) endIx
      ix0 hpre hj hlimo hgt hbetween hix0 hk0 hbad0
      (fun m mx hm hm2 hmx => ?_)
    by_contra hb
    exact Nat.find_min hex2 hm2 ⟨hm, mx, hmx, hb⟩
  · intro instrs cur j endIx hpre hj hlimo hgt hbetween hsuf
    exact search_second_ix_ok instrs cur j endIx hpre hj hlimo hgt
      hbetween hsuf
  · intro instrs cur hex
    classical
    obtain ⟨k, ixk, hk, hkx, hbad⟩ := hex
    have hex2 : ∃ n, cur + 1 ≤ n ∧ ∃ ix, instrs[n]? = some ix ∧
        ¬ program_id_allowed ix.program_id = true := ⟨k, hk, ixk, hkx, hbad⟩
    obtain ⟨hk0, ix0, hix0, hbad0⟩ := Nat.find_spec hex2
    refine search_first_ix_suffix_err instrs cur (Nat.find hex2) ix0 hix0
      hk0 hbad0 (fun m mx hm hm2 hmx => ?_)
    by_contra hb
    exact Nat.find_min hex2 hm2 ⟨hm, mx, hmx, hb⟩
  · intro instrs cur j hsuf hjcur hload hnl hex
    classical
    obtain ⟨f, ixf, hf, hfx, hbad⟩ := hex
    have hex2 : ∃ n, n < j ∧ ∃ ix, instrs[n]? = some ix ∧
        ¬ program_id_allowed ix.program_id = true := ⟨f, hf, ixf, hfx, hbad⟩
    obtain ⟨hf0, ix0, hix0, hbad0⟩ := Nat.find_spec hex2
    refine search_first_ix_prefix_err instrs cur (Nat.find hex2) ix0 hsuf
      (by omega) hix0 (hnl (Nat.find hex2) ix0 hf0 hix0) hbad0
      (fun i hi => ?_)
    obtain ⟨ix, hix⟩ := hload i (by omega)
    refine ⟨ix, hix, ?_⟩
    by_contra hb
    exact Nat.find_min hex2 hi ⟨by omega, ix, hix, hb⟩
  · intro instrs cur j startIx hsuf hj hlimo hlt hpre
    exact search_first_ix_ok instrs cur j startIx hsuf hj hlimo hlt hpre

/-- A concrete foreign (not allow-listed, not this-program)
instruction. -/
def foreignIxEx : Instruction :=
  { program_id := 99, accounts := [], data := [] }

/-- A concrete allow-listed (token-program) instruction. -/
def tokenIxEx : Instruction :=
  { program_id := TOKEN_PROGRAM_ID, accounts := [], data := [] }

/-- C10 witness: a foreign instruction before the start is rejected,
while a foreign instruction strictly between the start and the end is
accepted by both verifiers. -/
theorem C10_witness :
    search_second_ix [foreignIxEx, startIxEx, endIxEx] 1 =
        .error .FlashTxWithUnexpectedIxs ∧
      search_second_ix [startIxEx, foreignIxEx, endIxEx] 0 =
        .ok endIxEx ∧
      search_first_ix [startIxEx, foreignIxEx, endIxEx] 2 =
        .ok startIxEx := by
  refine ⟨?_, ?_, ?_⟩
  · exact C10_allow_list_outside_bracket.1 [foreignIxEx, startIxEx, endIxEx]
      1 (fun i hi => ⟨foreignIxEx, by
        interval_cases i
        decide⟩)
      ⟨0, foreignIxEx, by omega, by decide, by decide⟩
  · exact C10_allow_list_outside_bracket.2.2.1
      [startIxEx, foreignIxEx, endIxEx] 0 2 endIxEx
      (fun i hi => absurd hi (by omega)) (by decide) (by decide)
      (by omega)
      (fun m mx hm hm2 hmx => by
        interval_cases m
        · cases Option.some.inj hmx
          decide)
      (fun k kx hk hkx => by
        rw [List.getElem?_eq_none (by simpa using hk)] at hkx
        exact Option.noConfusion hkx)
  · exact C10_allow_list_outside_bracket.2.2.2.2.2
      [startIxEx, foreignIxEx, endIxEx] 2 0 startIxEx
      (fun k kx hk hkx => by
        rw [List.getElem?_eq_none (by simpa using hk)] at hkx
        exact Option.noConfusion hkx)
      (by decide) (by decide) (by omega)
      (fun i hi => absurd hi (by omega))

end Limo
